import Mathlib

/-!
# DSDE_Exchange / DSDE_Free (src/dsde.cpp)

A shallow embedding of the dynamic sparse data exchange of `src/dsde.cpp`.

Modelling conventions.
* C `int` and `MPI_Aint` values are integers (`Int`); ranks, loop counters and array
  indices that the source keeps non-negative are natural numbers.
* `int` has 32 bits, `MPI_Aint`, `size_t` and pointers have 64 (LP64).  Where the source
  puts an `MPI_Aint` into an `int` (the store of line 31, the count argument of
  `MPI_Isend` at line 41) the value is reduced to 32 bits, two's complement (`toInt32`).
  The `int` accumulator `rbufsize` of line 55 wraps the same way (signed overflow is
  undefined in C++; the model takes the two's-complement result that the generated code
  computes).  The argument of `malloc` is computed in `size_t`, modulo `2^64`.  The
  `MPI_Aint` running offset adds at most `2^31` values of type `int` and cannot leave its
  range, so it is not reduced; addresses are not reduced either.
* Every `for (int i = 0; i < n; i++)` loop is `forLoop n body init`.
* `std::vector` and the arrays carved out of the allocated block are lists; a store
  through an index outside the array is undefined behaviour and is logged in the loop
  state instead of being simulated.
* Pointers are integer addresses, `0` is `NULL`.  Scalar objects (the caller's output
  variables, the fields of the handle struct) live in a memory `Int → Int` keyed by
  their address.
* The transport (`MPI_Alltoall`, `MPI_Isend`, `MPI_Irecv`, `MPI_Waitall`) is external;
  each call is recorded in the state and its status code is an input of the model.
-/

namespace DSDE

/-! ## Constants -/

/-- Status code `MPI_SUCCESS`. -/
def MPI_SUCCESS : Int := 0

/-- Handle discriminant `DSDE_HT_BUF = 1` (line 8). -/
def DSDE_HT_BUF : Int := 1

/-- The null pointer. -/
def NULL : Int := 0

/-- Modelled from the spec: `dsde.h` is not part of the sources; the spec calls
`DSDE_HANDLE_NULL` the null sentinel of a handle, and line 126 compares a pointer with
it, so it is the null pointer. -/
def DSDE_HANDLE_NULL : Int := 0

/-- Reduction of an integer to the range of `int` (32 bits, two's complement): the value
an `int` object takes when it is assigned a wider integer, and the value an `int` lvalue
reads from the low-order 32 bits of a scalar. -/
def toInt32 (v : Int) : Int := (v + 2147483648) % 4294967296 - 2147483648

/-- Reduction of an integer to the range of `size_t` (64 bits, unsigned). -/
def toSizeT (v : Int) : Int := v % 18446744073709551616

/-! ## Loops -/

/-- The loop `for (int i = 0; i < n; i++) body`, run from the state `init`. -/
def forLoop {σ : Type} (n : Nat) (body : Nat → σ → σ) (init : σ) : σ :=
  (List.range n).foldl (fun s i => body i s) init

/-! ## Size discovery (lines 28-33) -/

/-- One entry `i` of the sparse send plan: `sranks[i]`, `sendcounts[i]`, `sdispls[i]`. -/
structure SendEntry where
  rank : Nat
  count : Int
  displ : Int
deriving DecidableEq, Repr

/-- Line 31, one iteration: `ssizes[ sranks[i] ] = sendcounts[i]`.  The vector holds
`int`, so the `MPI_Aint` count is narrowed by the assignment.  An index outside the vector
is undefined behaviour (`none`). -/
def ssizesBody (p : Nat) (acc : Option (List Int)) (e : SendEntry) : Option (List Int) :=
  match acc with
  | none => none
  | some ss => if e.rank < p then some (ss.set e.rank (toInt32 e.count)) else none

/-- Lines 30-31: `ssizes(p,0)` followed by the loop over the send plan. -/
def buildSsizes (p : Nat) (plan : List SendEntry) : Option (List Int) :=
  plan.foldl (ssizesBody p) (some (List.replicate p 0))

/-- Line 33, `MPI_Alltoall` with one `MPI_INT` per peer, modelled as a transpose: the
vector rank `r` receives holds at index `s` the entry `r` of the vector rank `s` sent. -/
def MPI_Alltoall (ssizes : List (List Int)) (r : Nat) : List Int :=
  ssizes.map (fun v => v.getD r 0)

/-! ## Counting the incoming data (lines 51-56) -/

/-- The two `int` counters of lines 51-52. -/
structure Incoming where
  rbufsize : Int
  num_incoming : Nat
deriving DecidableEq, Repr

/-- Lines 53-56, one iteration: `if(rsizes[i]) { num_incoming++; rbufsize+=rsizes[i]; }`.
`rbufsize` is an `int`: the sum is reduced to 32 bits.  `num_incoming` counts at most `p`
entries and stays in range. -/
def countBody (rsizes : List Int) (i : Nat) (c : Incoming) : Incoming :=
  if rsizes.getD i 0 ≠ 0 then
    { rbufsize := toInt32 (c.rbufsize + rsizes.getD i 0), num_incoming := c.num_incoming + 1 }
  else c

/-- Lines 51-56. -/
def countIncoming (p : Nat) (rsizes : List Int) : Incoming :=
  forLoop p (countBody rsizes) { rbufsize := 0, num_incoming := 0 }

/-! ## Requests, posted transfers -/

/-- What a slot of the request array stands for: the request of the `i`-th posted send
or of the receive posted for a source rank. -/
inductive Request where
  | send (i : Nat)
  | recv (source : Nat)
deriving DecidableEq, Repr

/-- A call `MPI_Isend(sendbuf + extent*displ, count, sendtype, dest, 999, comm, _)`;
`count` is the `int` the call receives. -/
structure SendPost where
  dest : Nat
  count : Int
  displ : Int
deriving DecidableEq, Repr

/-- A call `MPI_Irecv(*recvbuf + extent*offset, count, recvtype, source, 999, comm, _)`. -/
structure RecvPost where
  source : Nat
  count : Int
  offset : Int
deriving DecidableEq, Repr

/-- State of the send loop of lines 40-42: the request array and the sends posted. -/
structure SendLoop where
  reqs : List (Option Request)
  sends : List SendPost
deriving DecidableEq, Repr

/-- Lines 40-42, one iteration: `MPI_Isend(..., sendcounts[i], ..., &reqs[i])`.  The count
parameter of `MPI_Isend` is an `int`, so the `MPI_Aint` count is narrowed by the call. -/
def sendBody (plan : List SendEntry) (i : Nat) (s : SendLoop) : SendLoop :=
  match plan.get? i with
  | none => s
  | some e =>
    { reqs := s.reqs.set i (some (Request.send i))
      sends := s.sends ++ [{ dest := e.rank, count := toInt32 e.count, displ := e.displ }] }

/-- Lines 35-42: `reqs(srankcount)` (no slot assigned yet) and the send loop;
`srankcount` is the length of the plan. -/
def postSends (plan : List SendEntry) : SendLoop :=
  forLoop plan.length (sendBody plan) { reqs := List.replicate plan.length none, sends := [] }

/-! ## The receive loop (lines 104-116) -/

/-- State of the receive loop. `stray` logs the stores `&reqs[k]` whose index `k` is
outside the request array, `strayDesc` the descriptor indices outside the arrays. -/
structure RecvLoop where
  reqs : List (Option Request)
  stray : List (Int × Request)
  reqoffset : Int
  recvs : List RecvPost
  rranks : List Nat
  recvcounts : List Int
  rdispls : List Int
  strayDesc : List Nat
  offset : Int
  index : Nat
deriving DecidableEq, Repr

/-- Lines 109-116, one iteration of `for(int i=0; i<p; i++) if(rsizes[i]) { ... }`. -/
def recvBody (rsizes : List Int) (i : Nat) (s : RecvLoop) : RecvLoop :=
  if rsizes.getD i 0 ≠ 0 then
    { reqs :=
        if 0 ≤ s.reqoffset ∧ s.reqoffset < s.reqs.length then
          s.reqs.set s.reqoffset.toNat (some (Request.recv i))
        else s.reqs
      stray :=
        if 0 ≤ s.reqoffset ∧ s.reqoffset < s.reqs.length then s.stray
        else s.stray ++ [(s.reqoffset, Request.recv i)]
      reqoffset := s.reqoffset + 1
      recvs := s.recvs ++ [{ source := i, count := rsizes.getD i 0, offset := s.offset }]
      rranks := s.rranks.set s.index i
      recvcounts := s.recvcounts.set s.index (rsizes.getD i 0)
      rdispls := s.rdispls.set s.index s.offset
      strayDesc := if s.index < s.rranks.length then s.strayDesc else s.strayDesc ++ [s.index]
      offset := s.offset + rsizes.getD i 0
      index := s.index + 1 }
  else s

/-- Lines 104-108: `reqoffset = reqs.size() - 1`, `reqs.resize(reqs.size() + num_incoming)`,
`offset = 0`, `index = 0`; the three descriptor arrays have `num_incoming` slots each
(lines 85-94). -/
def recvStart (reqs : List (Option Request)) (num_incoming : Nat) : RecvLoop :=
  { reqs := reqs ++ List.replicate num_incoming none
    stray := []
    reqoffset := (reqs.length : Int) - 1
    recvs := []
    rranks := List.replicate num_incoming 0
    recvcounts := List.replicate num_incoming 0
    rdispls := List.replicate num_incoming 0
    strayDesc := []
    offset := 0
    index := 0 }

/-- Lines 104-116 for a process whose request array is `reqs` after the send loop and
whose size vector is `rsizes` (`p` entries). -/
def recvLoop (p : Nat) (rsizes : List Int) (reqs : List (Option Request)) : RecvLoop :=
  forLoop p (recvBody rsizes) (recvStart reqs (countIncoming p rsizes).num_incoming)


/-! ## One exchange across the whole group -/

/-- Lines 30-31 on every rank of a group whose send plans are `plans` (rank `s` holds
`plans[s]`); `p` is the group size reported by `MPI_Comm_size`. -/
def allSsizes (p : Nat) : List (List SendEntry) → Option (List (List Int))
  | [] => some []
  | plan :: rest =>
    match buildSsizes p plan, allSsizes p rest with
    | some v, some vs => some (v :: vs)
    | _, _ => none

/-- The receive side of rank `r` (lines 51-56 and 104-116) in the exchange in which the
ranks `0, ..., plans.length - 1` call DSDE_Exchange with the send plans `plans`. -/
def exchangeAt (plans : List (List SendEntry)) (r : Nat) : Option RecvLoop :=
  match allSsizes plans.length plans with
  | none => none
  | some ss =>
    some (recvLoop plans.length (MPI_Alltoall ss r) (postSends (plans.getD r [])).reqs)

/-- `sizeof(int)`. -/
def sizeof_int : Int := 4

/-- `sizeof(MPI_Aint)`. -/
def sizeof_MPI_Aint : Int := 8

/-- `sizeof(handle_dsde_exchange_t)` (lines 14-21) with 8-byte pointers and alignment. -/
def sizeof_handle : Int := 48

/-- Byte offsets of the fields of `handle_dsde_exchange_t` (lines 14-21); `type` is the
first field, at offset 0. -/
def off_type : Int := 0
def off_recvbuf : Int := 8
def off_rrankcount : Int := 16
def off_rranks : Int := 24
def off_recvcounts : Int := 32
def off_rdispls : Int := 40

/-- Scalar objects by address. -/
abbrev Memory := Int → Int

/-- The store `*a = v`. -/
def store (m : Memory) (a v : Int) : Memory := fun x => if x = a then v else m x

/-- The read `*(int*) a`. -/
def loadInt (m : Memory) (a : Int) : Int := toInt32 (m a)

/-- The store `*ptr = v` through a pointer argument; undefined (`none`) for a null
pointer. -/
def storeVia (m : Option Memory) (ptr v : Int) : Option Memory :=
  match m with
  | none => none
  | some m => if ptr = NULL then none else some (store m ptr v)

/-- The assignment `*ptr = *src` through a pointer argument. -/
def copyVia (m : Option Memory) (ptr src : Int) : Option Memory :=
  match m with
  | none => none
  | some m => if ptr = NULL then none else some (store m ptr (m src))

/-- Lines 59-65: the argument of `malloc`.  The sum starts with a `sizeof`, so it is
computed in `size_t`: the `MPI_Aint` product `rbufsize * extent` and the `int` counter are
converted to `size_t` and the result is taken modulo `2^64`. -/
def mallocSize (extent : Int) (c : Incoming) : Int :=
  toSizeT (sizeof_handle + c.rbufsize * extent + sizeof_int * (c.num_incoming : Int)
    + sizeof_MPI_Aint * (c.num_incoming : Int) + sizeof_MPI_Aint * (c.num_incoming : Int))

/-- The addresses lines 67-94 carve out of the block, and the final value of `tmp`. -/
structure Layout where
  fields : Int
  recvbuf : Int
  rranks : Int
  recvcounts : Int
  rdispls : Int
  tmp : Int
deriving DecidableEq, Repr

/-- Lines 67-94: `tmp` starts at `memory` and is advanced past each region in turn. -/
def carve (memory extent : Int) (c : Incoming) : Layout :=
  let tmp0 := memory
  let fields := tmp0
  let tmp1 := tmp0 + sizeof_handle
  let recvbuf := tmp1
  let tmp2 := tmp1 + c.rbufsize * extent
  let rranks := tmp2
  let tmp3 := tmp2 + sizeof_int * (c.num_incoming : Int)
  let recvcounts := tmp3
  let tmp4 := tmp3 + sizeof_MPI_Aint * (c.num_incoming : Int)
  let rdispls := tmp4
  let tmp5 := tmp4 + sizeof_MPI_Aint * (c.num_incoming : Int)
  { fields := fields, recvbuf := recvbuf, rranks := rranks, recvcounts := recvcounts,
    rdispls := rdispls, tmp := tmp5 }

/-- Lines 75-93: the stores into the fields of the handle struct at `fields`. -/
def writeFields (m : Memory) (l : Layout) (c : Incoming) : Memory :=
  store (store (store (store (store (store m
    (l.fields + off_type) DSDE_HT_BUF)
    (l.fields + off_recvbuf) l.recvbuf)
    (l.fields + off_rrankcount) (c.num_incoming : Int))
    (l.fields + off_rranks) l.rranks)
    (l.fields + off_recvcounts) l.recvcounts)
    (l.fields + off_rdispls) l.rdispls

/-! ## The two entry points -/

/-- The pointer arguments of DSDE_Exchange and the send plan (`srankcount` is the length
of `plan`, entry `i` holds `sranks[i]`, `sendcounts[i]`, `sdispls[i]`).  `recvbuf`,
`rrankcount`, `rranks`, `recvcounts`, `rdispls` and `handle` are the addresses of the
caller's output variables. -/
structure Args where
  sendbuf : Int
  plan : List SendEntry
  recvbuf : Int
  rrankcount : Int
  rranks : Int
  recvcounts : Int
  rdispls : Int
  handle : Int

/-- What the surroundings answer during one call: whether the file was compiled with
`NDEBUG` (then `assert` expands to nothing), the vector `MPI_Alltoall` leaves in `rsizes`
(its length is the group size `p` of line 29), the extent of the datatype, the address
`malloc` returns (`NULL` on failure), and the status codes returned by the transport calls
(by position of the call; the source discards every one of them). -/
structure Env where
  ndebug : Bool
  rsizes : List Int
  extent : Int
  memory : Int
  rcAlltoall : Int
  rcIsend : Nat → Int
  rcIrecv : Nat → Int
  rcWaitall : Int

/-- The observable state of a process. -/
structure World where
  /-- scalar objects by address -/
  mem : Memory
  /-- arguments of the calls of `malloc`, in order -/
  mallocs : List Int
  /-- blocks obtained from `malloc` and not released -/
  live : List Int
  /-- arguments of the calls of `free`, in order -/
  frees : List Int
  /-- number of `MPI_Alltoall` rounds entered -/
  alltoalls : Nat
  /-- sends posted -/
  sends : List SendPost
  /-- receives posted -/
  recvs : List RecvPost
  /-- the request array -/
  reqs : List (Option Request)
  /-- contents of the three descriptor arrays of the block -/
  rranks : List Nat
  recvcounts : List Int
  rdispls : List Int
  /-- the request array `MPI_Waitall` was called with, once it was called -/
  waited : Option (List (Option Request))

/-- Kinds of undefined behaviour the model detects. -/
inductive Fault where
  | outOfBounds
  | nullDeref
  | invalidFree
  | useAfterFree
deriving DecidableEq, Repr

/-- How a call ends: it returns a status code, it is aborted by a failed `assert`, or it
runs into undefined behaviour.  The state is the one reached before the abort or before
the statements whose behaviour is undefined. -/
inductive Outcome where
  | returned (code : Int) (w : World)
  | assertFailed (w : World)
  | undefined (what : Fault) (w : World)

/-- The state an outcome carries. -/
def Outcome.world : Outcome → World
  | .returned _ w => w
  | .assertFailed w => w
  | .undefined _ w => w

/-- The status code, for a call that returned. -/
def Outcome.code : Outcome → Option Int
  | .returned c _ => some c
  | _ => none

/-- Whether the call was aborted by a failed assertion. -/
def Outcome.aborted : Outcome → Bool
  | .assertFailed _ => true
  | _ => false

/-- The undefined behaviour met, if any. -/
def Outcome.fault : Outcome → Option Fault
  | .undefined f _ => some f
  | _ => none

/-- Lines 44-47: the four assertions `assert(recvbuf == NULL)`, `assert(rranks == NULL)`,
`assert(recvcounts == NULL)`, `assert(rdispls == NULL)` on the pointer arguments. -/
def assertionsHold (a : Args) : Bool :=
  decide (a.recvbuf = NULL) && decide (a.rranks = NULL) && decide (a.recvcounts = NULL)
    && decide (a.rdispls = NULL)

/-- Lines 97-102: the stores through the six output pointers, in order; the first five
copy a field of the handle struct, the last stores the address of the block. -/
def writeOutputs (m : Memory) (a : Args) (l : Layout) (memory : Int) : Option Memory :=
  storeVia (copyVia (copyVia (copyVia (copyVia (copyVia (some m)
    a.recvbuf (l.fields + off_recvbuf))
    a.rrankcount (l.fields + off_rrankcount))
    a.rranks (l.fields + off_rranks))
    a.recvcounts (l.fields + off_recvcounts))
    a.rdispls (l.fields + off_rdispls))
    a.handle memory

/-- DSDE_Exchange (lines 23-121) on one process.  The vector built at lines 30-31 goes to
the peers; what the peers deliver at line 33 is `env.rsizes` (`exchangeAt` ties the two
together for a whole group). -/
def DSDE_Exchange (env : Env) (a : Args) (w : World) : Outcome :=
  -- lines 28-31
  let p := env.rsizes.length
  match buildSsizes p a.plan with
  | none => .undefined .outOfBounds w
  | some _ =>
    -- line 33
    let w1 := { w with alltoalls := w.alltoalls + 1 }
    let rsizes := env.rsizes
    -- lines 35-42
    let sl := postSends a.plan
    let w2 := { w1 with sends := w1.sends ++ sl.sends, reqs := sl.reqs }
    -- lines 44-47
    if !env.ndebug && !assertionsHold a then .assertFailed w2
    else
      -- lines 51-56
      let c := countIncoming p rsizes
      -- lines 59-65
      let memory := env.memory
      let w2 := { w2 with mallocs := w2.mallocs ++ [mallocSize env.extent c] }
      if memory = NULL then
        -- line 75 stores through the null pointer
        .undefined .nullDeref w2
      else
        let w3 := { w2 with live := memory :: w2.live }
        -- lines 67-94
        let l := carve memory env.extent c
        let m1 := writeFields w3.mem l c
        -- lines 97-102
        match writeOutputs m1 a l memory with
        | none => .undefined .nullDeref { w3 with mem := m1 }
        | some m2 =>
          let w4 := { w3 with mem := m2 }
          -- lines 104-116
          let rl := recvLoop p rsizes w4.reqs
          let w5 := { w4 with
            reqs := rl.reqs, recvs := w4.recvs ++ rl.recvs,
            rranks := rl.rranks, recvcounts := rl.recvcounts, rdispls := rl.rdispls }
          if !rl.stray.isEmpty || !rl.strayDesc.isEmpty then .undefined .outOfBounds w5
          else
            -- lines 118-120
            .returned MPI_SUCCESS { w5 with waited := some w5.reqs }

/-- Line 127: `int type = *(int*) handle`, the discriminant DSDE_Free inspects. -/
def inspectedType (handle : Int) (w : World) : Int := loadInt w.mem handle

/-- DSDE_Free (lines 124-135); the malformed `return MPI_SUCCESS:` of line 134 is read as
the return of `MPI_SUCCESS`.  `handle` is the pointer argument. -/
def DSDE_Free (handle : Int) (w : World) : Outcome :=
  if handle ≠ DSDE_HANDLE_NULL then
    -- line 127
    let type := inspectedType handle w
    if type = DSDE_HT_BUF then
      if handle ∈ w.live then
        -- line 130 releases the block at `handle`, line 131 then stores into it
        .undefined .useAfterFree
          { w with live := w.live.erase handle, frees := w.frees ++ [handle] }
      else
        -- line 130 on an address that `malloc` did not return
        .undefined .invalidFree { w with frees := w.frees ++ [handle] }
    else .returned MPI_SUCCESS w
  else .returned MPI_SUCCESS w

/-- A state in which nothing has happened yet, with memory `m`. -/
def World.init (m : Memory) : World :=
  { mem := m, mallocs := [], live := [], frees := [], alltoalls := 0, sends := [], recvs := [], reqs := [],
    rranks := [], recvcounts := [], rdispls := [], waited := none }

/-! ## Sample calls -/

/-- A call whose six output variables sit at the addresses 1000, 1008, ..., 1040. -/
def sampleArgs (plan : List SendEntry) : Args :=
  { sendbuf := 512, plan := plan, recvbuf := 1000, rrankcount := 1008, rranks := 1016,
    recvcounts := 1024, rdispls := 1032, handle := 1040 }

/-- A call that passes null pointers for the receive buffer, the ranks, the counts and
the displacements (the only pointers the assertions of lines 44-47 let through); the
rank-count variable sits at 1008 and the handle variable at 1040. -/
def sampleNullArgs (plan : List SendEntry) : Args :=
  { sendbuf := 512, plan := plan, recvbuf := NULL, rrankcount := 1008, rranks := NULL,
    recvcounts := NULL, rdispls := NULL, handle := 1040 }

/-- Surroundings in which `malloc` returns the address 4096, the extent is 4 and the
all-to-all reports the status `rc`. -/
def sampleEnv (ndebug : Bool) (rsizes : List Int) (rc : Int) : Env :=
  { ndebug := ndebug, rsizes := rsizes, extent := 4, memory := 4096, rcAlltoall := rc,
    rcIsend := fun _ => 0, rcIrecv := fun _ => 0, rcWaitall := 0 }

/-! ## Specification-side helpers -/

/-- Ranks below `n` whose entry of the size vector is nonzero, in ascending order. -/
def srcs (rsizes : List Int) (n : Nat) : List Nat :=
  (List.range n).filter (fun i => decide (rsizes.getD i 0 ≠ 0))

/-- Running offsets of a list of counts: entry `k` is the sum of the first `k` counts. -/
def offsets (l : List Int) : List Int :=
  (List.range l.length).map (fun k => (l.take k).sum)

/-- Entry `r` of the size vector after the loop of line 31, when it held `v` before: the
narrowed count of the last plan entry whose destination is `r`, or `v` when there is
none. -/
def lastCount (plan : List SendEntry) (r : Nat) (v : Int) : Int :=
  plan.foldl (fun v e => if e.rank = r then toInt32 e.count else v) v

/-- Value of the running `offset` of the receive loop when it reaches rank `n`: the sum
of the nonzero entries of the size vector below `n`. -/
def offsetAt (rsizes : List Int) (n : Nat) : Int :=
  ((srcs rsizes n).map (fun i => rsizes.getD i 0)).sum

/-- The send posted for a plan entry (line 41), with the count as `MPI_Isend` gets it. -/
def SendEntry.toPost (e : SendEntry) : SendPost :=
  { dest := e.rank, count := toInt32 e.count, displ := e.displ }

/-- The memory after the six stores of lines 97-102 when no output pointer is null. -/
def publish (m : Memory) (a : Args) (l : Layout) (memory : Int) : Memory :=
  let m1 := store m a.recvbuf (m (l.fields + off_recvbuf))
  let m2 := store m1 a.rrankcount (m1 (l.fields + off_rrankcount))
  let m3 := store m2 a.rranks (m2 (l.fields + off_rranks))
  let m4 := store m3 a.recvcounts (m3 (l.fields + off_recvcounts))
  let m5 := store m4 a.rdispls (m4 (l.fields + off_rdispls))
  store m5 a.handle memory

/-- The five regions carved out of the block, each as the half-open range from its
pointer to the value of `tmp` after the `tmp +=` that follows it (lines 71-94): handle
fields, payload, source ranks, counts, displacements. -/
def regions (l : Layout) : List (Int × Int) :=
  [(l.fields, l.recvbuf), (l.recvbuf, l.rranks), (l.rranks, l.recvcounts),
   (l.recvcounts, l.rdispls), (l.rdispls, l.tmp)]

/-! ## Integer widths -/

theorem toInt32_zero : toInt32 0 = 0 := by decide

theorem toInt32_of_range (x : Int) (h1 : -2147483648 ≤ x) (h2 : x < 2147483648) :
    toInt32 x = x := by
  unfold toInt32; omega

theorem toInt32_add_left (a b : Int) : toInt32 (toInt32 a + b) = toInt32 (a + b) := by
  unfold toInt32; omega

theorem toInt32_range (x : Int) : -2147483648 ≤ toInt32 x ∧ toInt32 x < 2147483648 := by
  unfold toInt32; omega

theorem toSizeT_of_range (x : Int) (h1 : 0 ≤ x) (h2 : x < 18446744073709551616) :
    toSizeT x = x := by
  unfold toSizeT; omega

/-! ## Loop lemmas -/

theorem forLoop_zero {σ : Type} (body : Nat → σ → σ) (init : σ) :
    forLoop 0 body init = init := rfl

theorem forLoop_succ {σ : Type} (n : Nat) (body : Nat → σ → σ) (init : σ) :
    forLoop (n + 1) body init = body n (forLoop n body init) := by
  simp [forLoop, List.range_succ, List.foldl_append]

theorem srcs_zero (rsizes : List Int) : srcs rsizes 0 = [] := rfl

theorem srcs_succ_of_ne (rsizes : List Int) (n : Nat) (h : rsizes.getD n 0 ≠ 0) :
    srcs rsizes (n + 1) = srcs rsizes n ++ [n] := by
  have h1 : decide (rsizes.getD n 0 ≠ 0) = true := by simpa using h
  simp only [srcs, List.range_succ, List.filter_append]
  rw [List.filter_cons_of_pos (p := fun i => decide (rsizes.getD i 0 ≠ 0)) h1, List.filter_nil]

theorem srcs_succ_of_eq (rsizes : List Int) (n : Nat) (h : rsizes.getD n 0 = 0) :
    srcs rsizes (n + 1) = srcs rsizes n := by
  have h1 : ¬ (decide (rsizes.getD n 0 ≠ 0) = true) := by simpa using h
  simp only [srcs, List.range_succ, List.filter_append]
  rw [List.filter_cons_of_neg (p := fun i => decide (rsizes.getD i 0 ≠ 0)) h1, List.filter_nil,
    List.append_nil]

theorem srcs_length_mono (rsizes : List Int) {n m : Nat} (h : n ≤ m) :
    (srcs rsizes n).length ≤ (srcs rsizes m).length := by
  induction m with
  | zero =>
    have : n = 0 := by omega
    subst this; exact le_refl _
  | succ m ih =>
    rcases Nat.lt_or_ge n (m + 1) with hlt | hge
    · have hle : n ≤ m := by omega
      by_cases h0 : rsizes.getD m 0 = 0
      · rw [srcs_succ_of_eq _ _ h0]; exact ih hle
      · rw [srcs_succ_of_ne _ _ h0]; simp; have := ih hle; omega
    · have : n = m + 1 := by omega
      subst this; exact le_refl _

theorem mem_srcs (rsizes : List Int) (n r : Nat) :
    r ∈ srcs rsizes n ↔ r < n ∧ rsizes.getD r 0 ≠ 0 := by
  simp [srcs]

theorem srcs_pairwise (rsizes : List Int) (n : Nat) : (srcs rsizes n).Pairwise (· < ·) :=
  List.Pairwise.filter _ (List.pairwise_lt_range n)

theorem offsets_nil : offsets [] = [] := rfl

theorem offsets_snoc (l : List Int) (x : Int) : offsets (l ++ [x]) = offsets l ++ [l.sum] := by
  unfold offsets
  rw [List.length_append, List.length_singleton, List.range_succ, List.map_append]
  congr 1
  · apply List.map_congr_left
    intro k hk
    rw [List.mem_range] at hk
    rw [List.take_append_of_le_length (Nat.le_of_lt hk)]
  · simp

theorem take_set_succ {α : Type} (l : List α) (k : Nat) (v : α) (h : k < l.length) :
    (l.set k v).take (k + 1) = l.take k ++ [v] := by
  induction l generalizing k with
  | nil => simp at h
  | cons a t ih =>
    cases k with
    | zero => simp
    | succ k =>
      simp only [List.length_cons, Nat.add_lt_add_iff_right] at h
      simp [ih k h]


theorem countIncoming_eq (rsizes : List Int) (n : Nat) :
    countIncoming n rsizes =
      { rbufsize := toInt32 ((srcs rsizes n).map (fun i => rsizes.getD i 0)).sum
        num_incoming := (srcs rsizes n).length } := by
  induction n with
  | zero => rfl
  | succ n ih =>
    unfold countIncoming at ih ⊢
    rw [forLoop_succ, ih]
    by_cases h0 : rsizes.getD n 0 = 0
    · rw [srcs_succ_of_eq _ _ h0]
      simp only [countBody, h0, ne_eq, not_true_eq_false, if_false]
    · rw [srcs_succ_of_ne _ _ h0]
      simp only [countBody, ne_eq, h0, not_false_eq_true, if_true, List.map_append,
        List.sum_append, List.length_append, List.map_cons, List.map_nil, List.sum_cons,
        List.sum_nil, List.length_singleton, add_zero, toInt32_add_left]

/-- Invariant of the receive loop after `n` iterations, for descriptor arrays of `N`
slots that are large enough for the sources met so far. -/
theorem recvLoop_inv (rsizes : List Int) (s0 : RecvLoop) (N : Nat)
    (hi : s0.index = 0) (ho : s0.offset = 0) (hs : s0.strayDesc = [])
    (h1 : s0.rranks.length = N) (h2 : s0.recvcounts.length = N) (h3 : s0.rdispls.length = N)
    (n : Nat) (hn : (srcs rsizes n).length ≤ N) :
    (forLoop n (recvBody rsizes) s0).index = (srcs rsizes n).length ∧
    (forLoop n (recvBody rsizes) s0).rranks.length = N ∧
    (forLoop n (recvBody rsizes) s0).recvcounts.length = N ∧
    (forLoop n (recvBody rsizes) s0).rdispls.length = N ∧
    (forLoop n (recvBody rsizes) s0).rranks.take (srcs rsizes n).length = srcs rsizes n ∧
    (forLoop n (recvBody rsizes) s0).recvcounts.take (srcs rsizes n).length
      = (srcs rsizes n).map (fun i => rsizes.getD i 0) ∧
    (forLoop n (recvBody rsizes) s0).rdispls.take (srcs rsizes n).length
      = offsets ((srcs rsizes n).map (fun i => rsizes.getD i 0)) ∧
    (forLoop n (recvBody rsizes) s0).offset
      = ((srcs rsizes n).map (fun i => rsizes.getD i 0)).sum ∧
    (forLoop n (recvBody rsizes) s0).strayDesc = [] := by
  induction n with
  | zero =>
    simp [forLoop_zero, srcs_zero, offsets_nil, hi, ho, hs, h1, h2, h3]
  | succ n ih =>
    have hle : (srcs rsizes n).length ≤ N :=
      le_trans (srcs_length_mono rsizes (Nat.le_succ n)) hn
    obtain ⟨i1, l1, l2, l3, t1, t2, t3, o1, sd⟩ := ih hle
    rw [forLoop_succ]
    by_cases h0 : rsizes.getD n 0 = 0
    · rw [srcs_succ_of_eq _ _ h0]
      simp only [recvBody, h0, ne_eq, not_true_eq_false, if_false]
      exact ⟨i1, l1, l2, l3, t1, t2, t3, o1, sd⟩
    · rw [srcs_succ_of_ne _ _ h0] at hn ⊢
      have hlt : (srcs rsizes n).length < N := by
        simp only [List.length_append, List.length_singleton] at hn; omega
      simp only [recvBody, ne_eq, h0, not_false_eq_true, if_true, List.length_set,
        List.length_append, List.length_singleton, List.map_append, List.map_cons,
        List.map_nil, List.sum_append, List.sum_cons, List.sum_nil, add_zero, i1, l1, l2, l3,
        o1, sd, hlt, offsets_snoc]
      refine ⟨trivial, trivial, trivial, trivial, ?_, ?_, ?_, trivial, trivial⟩
      · rw [take_set_succ _ _ _ (by rw [l1]; exact hlt), t1]
      · rw [take_set_succ _ _ _ (by rw [l2]; exact hlt), t2]
      · rw [take_set_succ _ _ _ (by rw [l3]; exact hlt), t3]


/-- What the receive loop leaves in the descriptor arrays, in closed form. -/
theorem recvLoop_descriptor (p : Nat) (rsizes : List Int) (reqs : List (Option Request)) :
    (recvLoop p rsizes reqs).rranks = srcs rsizes p ∧
    (recvLoop p rsizes reqs).recvcounts = (srcs rsizes p).map (fun i => rsizes.getD i 0) ∧
    (recvLoop p rsizes reqs).rdispls
      = offsets ((srcs rsizes p).map (fun i => rsizes.getD i 0)) ∧
    (recvLoop p rsizes reqs).index = (srcs rsizes p).length ∧
    (recvLoop p rsizes reqs).offset = ((srcs rsizes p).map (fun i => rsizes.getD i 0)).sum ∧
    (recvLoop p rsizes reqs).strayDesc = [] := by
  have hN : (countIncoming p rsizes).num_incoming = (srcs rsizes p).length := by
    rw [countIncoming_eq]
  obtain ⟨i1, l1, l2, l3, t1, t2, t3, o1, sd⟩ :=
    recvLoop_inv rsizes (recvStart reqs (countIncoming p rsizes).num_incoming)
      (srcs rsizes p).length rfl rfl rfl
      (by simp [recvStart, hN]) (by simp [recvStart, hN]) (by simp [recvStart, hN])
      p (le_refl _)
  unfold recvLoop
  refine ⟨?_, ?_, ?_, i1, o1, sd⟩
  · rw [← t1, List.take_of_length_le (le_of_eq l1)]
  · rw [← t2, List.take_of_length_le (le_of_eq l2)]
  · rw [← t3, List.take_of_length_le (le_of_eq l3)]

theorem offsets_length (l : List Int) : (offsets l).length = l.length := by
  simp [offsets]

theorem offsets_getD (l : List Int) (k : Nat) (hk : k < l.length) :
    (offsets l).getD k 0 = (l.take k).sum := by
  have hk2 : k < (offsets l).length := by rw [offsets_length]; exact hk
  rw [List.getD_eq_getElem _ _ hk2]
  simp [offsets]

theorem offsets_getD_succ (l : List Int) (k : Nat) (hk : k + 1 < l.length) :
    (offsets l).getD (k + 1) 0 = (offsets l).getD k 0 + l.getD k 0 := by
  rw [offsets_getD l (k + 1) hk, offsets_getD l k (by omega), List.sum_take_succ l k (by omega),
    List.getD_eq_getElem l 0 (by omega)]


/-! ## Descriptor claims -/

/-- C7: for every size vector, the source-rank array filled by the receive loop of
DSDE_Exchange is strictly ascending, holds a rank exactly when that rank's entry of the
size vector is nonzero, and the count stored at each index is the size-vector entry of
the rank stored at that index. -/
theorem C7_source_ranks (rsizes : List Int) (reqs : List (Option Request)) :
    (recvLoop rsizes.length rsizes reqs).rranks.Pairwise (· < ·) ∧
    (∀ r, r ∈ (recvLoop rsizes.length rsizes reqs).rranks ↔
      (r < rsizes.length ∧ rsizes.getD r 0 ≠ 0)) ∧
    (recvLoop rsizes.length rsizes reqs).recvcounts.length
      = (recvLoop rsizes.length rsizes reqs).rranks.length ∧
    (∀ k, k < (recvLoop rsizes.length rsizes reqs).rranks.length →
      (recvLoop rsizes.length rsizes reqs).recvcounts.getD k 0
        = rsizes.getD ((recvLoop rsizes.length rsizes reqs).rranks.getD k 0) 0) := by
  obtain ⟨hr, hc, -, -, -, -⟩ := recvLoop_descriptor rsizes.length rsizes reqs
  rw [hr, hc]
  refine ⟨srcs_pairwise _ _, fun r => mem_srcs _ _ _, by simp, ?_⟩
  intro k hk
  rw [List.getD_eq_getElem _ _ (by simpa using hk), List.getD_eq_getElem _ _ hk]
  simp

/-- C8 (as stated) fails: for the size vector `[2, -1, 3]` the recorded displacements are
`[0, 2, 1]`, which are running offsets of the counts but do not increase. -/
theorem C8_counterexample :
    (recvLoop 3 [2, -1, 3] [some (Request.send 0)]).rdispls = [0, 2, 1] ∧
    ¬ (((recvLoop 3 [2, -1, 3] [some (Request.send 0)]).rdispls.getD 0 0 = 0 ∧
        ∀ k, k + 1 < (recvLoop 3 [2, -1, 3] [some (Request.send 0)]).rdispls.length →
          (recvLoop 3 [2, -1, 3] [some (Request.send 0)]).rdispls.getD (k + 1) 0
            = (recvLoop 3 [2, -1, 3] [some (Request.send 0)]).rdispls.getD k 0
              + (recvLoop 3 [2, -1, 3] [some (Request.send 0)]).recvcounts.getD k 0) ∧
      ∀ k, k + 1 < (recvLoop 3 [2, -1, 3] [some (Request.send 0)]).rdispls.length →
        (recvLoop 3 [2, -1, 3] [some (Request.send 0)]).rdispls.getD k 0
          ≤ (recvLoop 3 [2, -1, 3] [some (Request.send 0)]).rdispls.getD (k + 1) 0) := by
  have h : (recvLoop 3 [2, -1, 3] [some (Request.send 0)]).rdispls = [0, 2, 1] := by decide
  refine ⟨h, ?_⟩
  rw [h]
  rintro ⟨-, hmono⟩
  have := hmono 1 (by decide)
  revert this
  decide

/-- C8 (amended): for every size vector the displacements recorded by the receive loop
are the running offsets of the recorded counts, `rdispls[0] = 0` and
`rdispls[k+1] = rdispls[k] + recvcounts[k]`; when no entry of the size vector is negative
the displacements increase strictly from one descriptor entry to the next. -/
theorem C8_displacements (rsizes : List Int) (reqs : List (Option Request)) :
    (recvLoop rsizes.length rsizes reqs).rdispls.length
      = (recvLoop rsizes.length rsizes reqs).recvcounts.length ∧
    (0 < (recvLoop rsizes.length rsizes reqs).rdispls.length →
      (recvLoop rsizes.length rsizes reqs).rdispls.getD 0 0 = 0) ∧
    (∀ k, k + 1 < (recvLoop rsizes.length rsizes reqs).rdispls.length →
      (recvLoop rsizes.length rsizes reqs).rdispls.getD (k + 1) 0
        = (recvLoop rsizes.length rsizes reqs).rdispls.getD k 0
          + (recvLoop rsizes.length rsizes reqs).recvcounts.getD k 0) ∧
    ((∀ i, 0 ≤ rsizes.getD i 0) →
      ∀ k, k + 1 < (recvLoop rsizes.length rsizes reqs).rdispls.length →
        (recvLoop rsizes.length rsizes reqs).rdispls.getD k 0
          < (recvLoop rsizes.length rsizes reqs).rdispls.getD (k + 1) 0) := by
  obtain ⟨-, hc, hd, -, -, -⟩ := recvLoop_descriptor rsizes.length rsizes reqs
  rw [hd, hc]
  have hstep : ∀ k, k + 1 < (offsets ((srcs rsizes rsizes.length).map
        (fun i => rsizes.getD i 0))).length →
      (offsets ((srcs rsizes rsizes.length).map (fun i => rsizes.getD i 0))).getD (k + 1) 0
        = (offsets ((srcs rsizes rsizes.length).map (fun i => rsizes.getD i 0))).getD k 0
          + ((srcs rsizes rsizes.length).map (fun i => rsizes.getD i 0)).getD k 0 := by
    intro k hk
    rw [offsets_length] at hk
    exact offsets_getD_succ _ k hk
  refine ⟨offsets_length _, ?_, hstep, ?_⟩
  · intro h0
    rw [offsets_length] at h0
    rw [offsets_getD _ 0 h0]
    simp
  · intro hnn k hk
    rw [hstep k hk]
    rw [offsets_length, List.length_map] at hk
    have hk1 : k < (srcs rsizes rsizes.length).length := by omega
    have hmem : (srcs rsizes rsizes.length)[k] ∈ srcs rsizes rsizes.length :=
      List.getElem_mem hk1
    have hne := ((mem_srcs _ _ _).1 hmem).2
    have hge := hnn ((srcs rsizes rsizes.length)[k])
    have hval : ((srcs rsizes rsizes.length).map (fun i => rsizes.getD i 0)).getD k 0
        = rsizes.getD ((srcs rsizes rsizes.length)[k]) 0 := by
      rw [List.getD_eq_getElem _ _ (by simpa using hk1)]
      simp
    rw [hval]
    omega

/-- C10 (as stated) fails: for the size vector `[2147483647, 1]` the descriptor counts
are `2147483647` and `1` and add up to `2147483648`, while the `int` accumulator
`rbufsize` of line 55 has wrapped to `-2147483648`. -/
theorem C10_counterexample :
    (recvLoop 2 [2147483647, 1] [some (Request.send 0)]).recvcounts = [2147483647, 1] ∧
    (recvLoop 2 [2147483647, 1] [some (Request.send 0)]).recvcounts.sum = 2147483648 ∧
    (countIncoming 2 [2147483647, 1]).rbufsize = -2147483648 ∧
    (recvLoop 2 [2147483647, 1] [some (Request.send 0)]).recvcounts.sum
      ≠ (countIncoming 2 [2147483647, 1]).rbufsize := by
  decide

/-- C10 (amended): for every size vector, `rbufsize`, the `int` total computed by the
counting loop and used to size the receive payload, is the sum of the counts written
into the descriptor reduced to 32 bits (two's complement); whenever that sum lies in the
range of `int`, the two are equal. -/
theorem C10_descriptor_total (rsizes : List Int) (reqs : List (Option Request)) :
    (countIncoming rsizes.length rsizes).rbufsize
      = toInt32 (recvLoop rsizes.length rsizes reqs).recvcounts.sum ∧
    (-2147483648 ≤ (recvLoop rsizes.length rsizes reqs).recvcounts.sum ∧
        (recvLoop rsizes.length rsizes reqs).recvcounts.sum ≤ 2147483647 →
      (recvLoop rsizes.length rsizes reqs).recvcounts.sum
        = (countIncoming rsizes.length rsizes).rbufsize) := by
  obtain ⟨-, hc, -, -, -, -⟩ := recvLoop_descriptor rsizes.length rsizes reqs
  rw [hc, countIncoming_eq]
  refine ⟨rfl, fun h => ?_⟩
  exact (toInt32_of_range _ h.1 (by omega)).symm



/-! ## Size discovery lemmas -/

theorem getD_set_int (l : List Int) (i r : Nat) (c : Int) (hi : i < l.length) :
    (l.set i c).getD r 0 = if i = r then c else l.getD r 0 := by
  by_cases h : i = r
  · subst h
    simp [List.getD_eq_getElem?_getD, List.getElem?_set_self, hi]
  · simp [List.getD_eq_getElem?_getD, List.getElem?_set_ne h, h]

theorem ssizes_fold (p : Nat) (plan : List SendEntry) :
    ∀ acc : List Int, acc.length = p → (∀ e ∈ plan, e.rank < p) →
      ∃ ss, plan.foldl (ssizesBody p) (some acc) = some ss ∧ ss.length = p ∧
        ∀ r, ss.getD r 0 = lastCount plan r (acc.getD r 0) := by
  induction plan with
  | nil => intro acc hl _; exact ⟨acc, rfl, hl, fun r => rfl⟩
  | cons e t ih =>
    intro acc hl hv
    have he : e.rank < p := hv e (List.mem_cons_self _ _)
    obtain ⟨ss, h1, h2, h3⟩ := ih (acc.set e.rank (toInt32 e.count)) (by simp [hl])
      (fun e' he' => hv e' (List.mem_cons_of_mem _ he'))
    refine ⟨ss, ?_, h2, ?_⟩
    · simp only [List.foldl_cons, ssizesBody, he, if_true]
      exact h1
    · intro r
      rw [h3 r, getD_set_int _ _ _ _ (by rw [hl]; exact he)]
      simp only [lastCount, List.foldl_cons]

theorem buildSsizes_spec (p : Nat) (plan : List SendEntry) (hv : ∀ e ∈ plan, e.rank < p) :
    ∃ ss, buildSsizes p plan = some ss ∧ ss.length = p ∧
      ∀ r, ss.getD r 0 = lastCount plan r 0 := by
  obtain ⟨ss, h1, h2, h3⟩ := ssizes_fold p plan (List.replicate p 0) (by simp) hv
  refine ⟨ss, h1, h2, fun r => ?_⟩
  rw [h3 r]
  congr 1
  simp only [List.getD_eq_getElem?_getD, List.getElem?_replicate]
  split <;> rfl

theorem allSsizes_spec (p : Nat) (plans : List (List SendEntry))
    (hv : ∀ plan ∈ plans, ∀ e ∈ plan, e.rank < p) :
    ∃ ss, allSsizes p plans = some ss ∧
      ∀ r, MPI_Alltoall ss r = plans.map (fun plan => lastCount plan r 0) := by
  induction plans with
  | nil => exact ⟨[], rfl, fun r => rfl⟩
  | cons plan rest ih =>
    obtain ⟨vs, h1, h2⟩ := ih (fun pl hpl => hv pl (List.mem_cons_of_mem _ hpl))
    obtain ⟨v, g1, -, g3⟩ := buildSsizes_spec p plan (hv plan (List.mem_cons_self _ _))
    refine ⟨v :: vs, ?_, fun r => ?_⟩
    · simp only [allSsizes, g1, h1]
    · have := h2 r
      simp only [MPI_Alltoall, List.map_cons] at this ⊢
      rw [this, g3 r]


theorem lastCount_of_not_mem (plan : List SendEntry) (r : Nat) :
    ∀ v : Int, (∀ e ∈ plan, e.rank ≠ r) → lastCount plan r v = v := by
  induction plan with
  | nil => intro v _; rfl
  | cons a t ih =>
    intro v h
    have ha : a.rank ≠ r := h a (List.mem_cons_self _ _)
    simp only [lastCount, List.foldl_cons, ha, if_false]
    exact ih v (fun e he => h e (List.mem_cons_of_mem _ he))

theorem lastCount_of_filter_eq (plan : List SendEntry) (r : Nat) (e : SendEntry) :
    ∀ v : Int, plan.filter (fun e => decide (e.rank = r)) = [e] →
      lastCount plan r v = toInt32 e.count := by
  induction plan with
  | nil => intro v h; simp at h
  | cons a t ih =>
    intro v h
    by_cases ha : a.rank = r
    · have h1 : decide (a.rank = r) = true := by simpa using ha
      rw [List.filter_cons_of_pos (p := fun e : SendEntry => decide (e.rank = r)) h1] at h
      have hae : a = e := by injection h
      have hf : t.filter (fun e => decide (e.rank = r)) = [] := by injection h
      have hno : ∀ e ∈ t, e.rank ≠ r := by
        intro x hx
        have := (List.filter_eq_nil_iff.1 hf) x hx
        simpa using this
      simp only [lastCount, List.foldl_cons, ha, if_true]
      rw [← hae]
      exact lastCount_of_not_mem t r (toInt32 a.count) hno
    · have h1 : ¬ decide (a.rank = r) = true := by simpa using ha
      rw [List.filter_cons_of_neg (p := fun e : SendEntry => decide (e.rank = r)) h1] at h
      simp only [lastCount, List.foldl_cons, ha, if_false]
      exact ih v h

theorem srcs_sum_take (rsizes : List Int) (n : Nat) (hn : n ≤ rsizes.length) :
    ((srcs rsizes n).map (fun i => rsizes.getD i 0)).sum = (rsizes.take n).sum := by
  induction n with
  | zero => simp [srcs_zero]
  | succ n ih =>
    have hlt : n < rsizes.length := hn
    rw [List.sum_take_succ rsizes n hlt, ← ih (Nat.le_of_lt hlt)]
    by_cases h0 : rsizes.getD n 0 = 0
    · rw [srcs_succ_of_eq _ _ h0]
      rw [List.getD_eq_getElem _ _ hlt] at h0
      rw [h0, add_zero]
    · rw [srcs_succ_of_ne _ _ h0]
      simp only [List.map_append, List.map_cons, List.map_nil, List.sum_append, List.sum_cons,
        List.sum_nil, add_zero]
      rw [List.getD_eq_getElem _ _ hlt]

theorem srcs_sum (rsizes : List Int) :
    ((srcs rsizes rsizes.length).map (fun i => rsizes.getD i 0)).sum = rsizes.sum := by
  rw [srcs_sum_take rsizes rsizes.length (le_refl _), List.take_length]

/-! ## Claims about the whole exchange -/

/-! ## Posted sends and receives -/

theorem sendLoop_sends (plan : List SendEntry) (s0 : SendLoop) (n : Nat)
    (hn : n ≤ plan.length) :
    (forLoop n (sendBody plan) s0).sends
      = s0.sends ++ (plan.take n).map SendEntry.toPost := by
  induction n with
  | zero => simp [forLoop_zero]
  | succ n ih =>
    have hlt : n < plan.length := hn
    rw [forLoop_succ, List.take_succ, List.map_append, ← List.append_assoc,
      ← ih (Nat.le_of_lt hlt)]
    have hget : plan.get? n = some plan[n] := by
      rw [List.get?_eq_getElem?]; exact List.getElem?_eq_getElem hlt
    simp only [sendBody, hget, List.getElem?_eq_getElem hlt, Option.toList, List.map_cons,
      List.map_nil, SendEntry.toPost]

theorem postSends_sends (plan : List SendEntry) :
    (postSends plan).sends = plan.map SendEntry.toPost := by
  unfold postSends
  rw [sendLoop_sends plan _ plan.length (le_refl _), List.take_length]
  rfl

theorem offsetAt_zero (rsizes : List Int) : offsetAt rsizes 0 = 0 := rfl

theorem offsetAt_succ (rsizes : List Int) (n : Nat) :
    offsetAt rsizes (n + 1) = offsetAt rsizes n + rsizes.getD n 0 := by
  unfold offsetAt
  by_cases h0 : rsizes.getD n 0 = 0
  · rw [srcs_succ_of_eq _ _ h0, h0, add_zero]
  · rw [srcs_succ_of_ne _ _ h0]
    simp only [List.map_append, List.map_cons, List.map_nil, List.sum_append, List.sum_cons,
      List.sum_nil, add_zero]

theorem offsetAt_mono (rsizes : List Int) (hnn : ∀ i, 0 ≤ rsizes.getD i 0) {n m : Nat}
    (h : n ≤ m) : offsetAt rsizes n ≤ offsetAt rsizes m := by
  induction m with
  | zero =>
    have : n = 0 := by omega
    subst this; exact le_refl _
  | succ m ih =>
    rcases Nat.lt_or_ge n (m + 1) with hlt | hge
    · have := ih (by omega)
      have := hnn m
      rw [offsetAt_succ]; omega
    · have : n = m + 1 := by omega
      subst this; exact le_refl _

/-- The receives posted and the displacements recorded, by source rank. -/
theorem recvLoop_recvs_inv (rsizes : List Int) (s0 : RecvLoop) (N : Nat)
    (hi : s0.index = 0) (ho : s0.offset = 0) (hs : s0.strayDesc = []) (hr : s0.recvs = [])
    (h1 : s0.rranks.length = N) (h2 : s0.recvcounts.length = N) (h3 : s0.rdispls.length = N)
    (n : Nat) (hn : (srcs rsizes n).length ≤ N) :
    (forLoop n (recvBody rsizes) s0).recvs
      = (srcs rsizes n).map
          (fun i => { source := i, count := rsizes.getD i 0, offset := offsetAt rsizes i }) ∧
    (forLoop n (recvBody rsizes) s0).rdispls.take (srcs rsizes n).length
      = (srcs rsizes n).map (offsetAt rsizes) := by
  induction n with
  | zero => simp [forLoop_zero, srcs_zero, hr]
  | succ n ih =>
    have hle : (srcs rsizes n).length ≤ N :=
      le_trans (srcs_length_mono rsizes (Nat.le_succ n)) hn
    obtain ⟨r1, d1⟩ := ih hle
    obtain ⟨i1, -, -, l3, -, -, -, o1, -⟩ := recvLoop_inv rsizes s0 N hi ho hs h1 h2 h3 n hle
    rw [forLoop_succ]
    by_cases h0 : rsizes.getD n 0 = 0
    · rw [srcs_succ_of_eq _ _ h0]
      simp only [recvBody, h0, ne_eq, not_true_eq_false, if_false]
      exact ⟨r1, d1⟩
    · rw [srcs_succ_of_ne _ _ h0] at hn ⊢
      have hlt : (srcs rsizes n).length < N := by
        simp only [List.length_append, List.length_singleton] at hn; omega
      simp only [recvBody, ne_eq, h0, not_false_eq_true, if_true, List.length_append,
        List.length_singleton, List.map_append, List.map_cons, List.map_nil, r1, i1, o1]
      refine ⟨rfl, ?_⟩
      rw [take_set_succ _ _ _ (by rw [l3]; exact hlt), d1]
      rfl

theorem recvLoop_recvs (p : Nat) (rsizes : List Int) (reqs : List (Option Request)) :
    (recvLoop p rsizes reqs).recvs
      = (srcs rsizes p).map
          (fun i => { source := i, count := rsizes.getD i 0, offset := offsetAt rsizes i }) ∧
    (recvLoop p rsizes reqs).rdispls = (srcs rsizes p).map (offsetAt rsizes) := by
  have hN : (countIncoming p rsizes).num_incoming = (srcs rsizes p).length := by
    rw [countIncoming_eq]
  obtain ⟨r1, d1⟩ :=
    recvLoop_recvs_inv rsizes (recvStart reqs (countIncoming p rsizes).num_incoming)
      (srcs rsizes p).length rfl rfl rfl rfl
      (by simp [recvStart, hN]) (by simp [recvStart, hN]) (by simp [recvStart, hN])
      p (le_refl _)
  obtain ⟨-, -, -, l3, -, -, -, -, -⟩ :=
    recvLoop_inv rsizes (recvStart reqs (countIncoming p rsizes).num_incoming)
      (srcs rsizes p).length rfl rfl rfl
      (by simp [recvStart, hN]) (by simp [recvStart, hN]) (by simp [recvStart, hN])
      p (le_refl _)
  unfold recvLoop
  refine ⟨r1, ?_⟩
  rw [← d1, List.take_of_length_le (le_of_eq l3)]


/-! ## Delivery lemmas -/

theorem getD_map_lists {α β : Type} (f : α → β) (l : List α) (k : Nat) (a : α) (b : β)
    (hk : k < l.length) : (l.map f).getD k b = f (l.getD k a) := by
  rw [List.getD_eq_getElem _ _ (by simpa using hk), List.getD_eq_getElem _ _ hk]
  simp

/-! ## The request array in the receive loop -/

/-- While the running request index stays inside the array, the receive loop stores
every request inside the array. -/
theorem recvLoop_reqs_inv (rsizes : List Int) (s0 : RecvLoop) (R : Nat) (o : Int)
    (hlen : s0.reqs.length = R) (hoff : s0.reqoffset = o) (hs : s0.stray = []) (ho : 0 ≤ o)
    (n : Nat) (hn : o + ((srcs rsizes n).length : Int) ≤ R) :
    (forLoop n (recvBody rsizes) s0).reqs.length = R ∧
    (forLoop n (recvBody rsizes) s0).reqoffset = o + ((srcs rsizes n).length : Int) ∧
    (forLoop n (recvBody rsizes) s0).stray = [] := by
  induction n with
  | zero => simp [forLoop_zero, srcs_zero, hlen, hoff, hs]
  | succ n ih =>
    have hle : (srcs rsizes n).length ≤ (srcs rsizes (n + 1)).length :=
      srcs_length_mono rsizes (Nat.le_succ n)
    obtain ⟨l1, o1, s1⟩ := ih (by omega)
    rw [forLoop_succ]
    by_cases h0 : rsizes.getD n 0 = 0
    · rw [srcs_succ_of_eq _ _ h0]
      simp only [recvBody, h0, ne_eq, not_true_eq_false, if_false]
      exact ⟨l1, o1, s1⟩
    · rw [srcs_succ_of_ne _ _ h0] at hn ⊢
      simp only [List.length_append, List.length_singleton, Nat.cast_add, Nat.cast_one] at hn ⊢
      have ha : 0 ≤ o + ((srcs rsizes n).length : Int) := by omega
      have hb : o + ((srcs rsizes n).length : Int) < (R : Int) := by omega
      simp only [recvBody, ne_eq, h0, not_false_eq_true, if_true, l1, o1, s1, ha, hb, and_self,
        List.length_set]
      exact ⟨trivial, by omega, trivial⟩

theorem postSends_reqs_length (plan : List SendEntry) :
    (postSends plan).reqs.length = plan.length := by
  have h : ∀ n (s0 : SendLoop), (forLoop n (sendBody plan) s0).reqs.length = s0.reqs.length := by
    intro n s0
    induction n with
    | zero => rfl
    | succ n ih =>
      rw [forLoop_succ]
      unfold sendBody
      split
      · exact ih
      · simp only [List.length_set]
        exact ih
  unfold postSends
  rw [h]
  simp

/-- With at least one send posted, the receive loop stores no request outside the
request array. -/
theorem recvLoop_no_stray (p : Nat) (rsizes : List Int) (plan : List SendEntry)
    (hplan : plan ≠ []) : (recvLoop p rsizes (postSends plan).reqs).stray = [] := by
  have hpos : 0 < plan.length := List.length_pos.2 hplan
  have hN : (countIncoming p rsizes).num_incoming = (srcs rsizes p).length := by
    rw [countIncoming_eq]
  have := recvLoop_reqs_inv rsizes
    (recvStart (postSends plan).reqs (countIncoming p rsizes).num_incoming)
    (plan.length + (srcs rsizes p).length) ((plan.length : Int) - 1)
    (by simp [recvStart, hN, postSends_reqs_length])
    (by simp [recvStart, postSends_reqs_length]) rfl (by omega) p
    (by push_cast; omega)
  exact this.2.2

/-- Without incoming data the receive loop stores no request at all. -/
theorem recvLoop_no_stray_of_no_incoming (p : Nat) (rsizes : List Int)
    (reqs : List (Option Request)) (h0 : (countIncoming p rsizes).num_incoming = 0) :
    (recvLoop p rsizes reqs).stray = [] := by
  have hN : (srcs rsizes p).length = 0 := by
    rw [countIncoming_eq] at h0; exact h0
  have hstep : ∀ n, n ≤ p → forLoop n (recvBody rsizes) (recvStart reqs 0) = recvStart reqs 0 := by
    intro n hn
    induction n with
    | zero => rfl
    | succ n ih =>
      rw [forLoop_succ, ih (Nat.le_of_succ_le hn)]
      have hz : rsizes.getD n 0 = 0 := by
        by_contra hne
        have hmem : n ∈ srcs rsizes p := (mem_srcs _ _ _).2 ⟨hn, hne⟩
        rw [List.length_eq_zero.1 hN] at hmem
        simp at hmem
      simp only [recvBody, hz, ne_eq, not_true_eq_false, if_false]
  unfold recvLoop
  rw [h0, hstep p (le_refl _)]
  rfl

theorem set_at_boundary {α : Type} (l1 d : List α) (k : Nat) (v : α) (hk : l1.length = k)
    (L : List α) (hd : d = L.drop k) (hlt : k < L.length) :
    (l1 ++ d).set k v = l1 ++ v :: L.drop (k + 1) := by
  rw [List.set_append_right _ _ (by omega), hk, Nat.sub_self, hd,
    List.drop_eq_getElem_cons hlt]
  rfl

/-- Contents of the request array during the receive loop: the requests of the receives
posted so far occupy consecutive slots from the initial value of `reqoffset` on. -/
theorem recvLoop_reqs_content (rsizes : List Int) (s0 : RecvLoop) (L : List (Option Request))
    (o : Nat) (hreqs : s0.reqs = L) (hoff : s0.reqoffset = (o : Int)) (hs : s0.stray = [])
    (n : Nat) (hn : o + (srcs rsizes n).length ≤ L.length) :
    (forLoop n (recvBody rsizes) s0).reqs
      = L.take o ++ (srcs rsizes n).map (fun i => some (Request.recv i))
          ++ L.drop (o + (srcs rsizes n).length) := by
  induction n with
  | zero => simp [forLoop_zero, srcs_zero, hreqs]
  | succ n ih =>
    have hle : (srcs rsizes n).length ≤ (srcs rsizes (n + 1)).length :=
      srcs_length_mono rsizes (Nat.le_succ n)
    have hn1 : o + (srcs rsizes n).length ≤ L.length := by omega
    have hc := ih hn1
    obtain ⟨l1, o1, -⟩ := recvLoop_reqs_inv rsizes s0 L.length (o : Int)
      (by rw [hreqs]) hoff hs (by omega) n (by exact_mod_cast hn1)
    rw [forLoop_succ]
    by_cases h0 : rsizes.getD n 0 = 0
    · rw [srcs_succ_of_eq _ _ h0]
      simp only [recvBody, h0, ne_eq, not_true_eq_false, if_false]
      exact hc
    · rw [srcs_succ_of_ne _ _ h0] at hn ⊢
      simp only [List.length_append, List.length_singleton] at hn ⊢
      have ha : 0 ≤ (o : Int) + ((srcs rsizes n).length : Int) := by omega
      have hb : (o : Int) + ((srcs rsizes n).length : Int) < (L.length : Int) := by omega
      have htoNat : ((o : Int) + ((srcs rsizes n).length : Int)).toNat
          = o + (srcs rsizes n).length := by omega
      simp only [recvBody, ne_eq, h0, not_false_eq_true, if_true, l1, o1, ha, hb, and_self,
        htoNat]
      rw [hc, set_at_boundary _ _ (o + (srcs rsizes n).length) _ (by simp; omega) L rfl
        (by omega)]
      simp [List.append_assoc, Nat.add_assoc]

theorem sendLoop_reqs (plan : List SendEntry) (n : Nat) (hn : n ≤ plan.length) :
    (forLoop n (sendBody plan)
        { reqs := List.replicate plan.length none, sends := [] }).reqs
      = (List.range n).map (fun i => some (Request.send i))
          ++ List.replicate (plan.length - n) none := by
  induction n with
  | zero => simp [forLoop_zero]
  | succ n ih =>
    have hlt : n < plan.length := hn
    have hget : plan.get? n = some plan[n] := by
      rw [List.get?_eq_getElem?]; exact List.getElem?_eq_getElem hlt
    rw [forLoop_succ]
    simp only [sendBody, hget]
    rw [ih (Nat.le_of_lt hlt), List.set_append_right _ _ (by simp)]
    have hrep : List.replicate (plan.length - n) (none : Option Request)
        = none :: List.replicate (plan.length - (n + 1)) none := by
      rw [show plan.length - n = (plan.length - (n + 1)) + 1 by omega, List.replicate_succ]
    rw [hrep]
    simp [List.range_succ]

theorem postSends_reqs (plan : List SendEntry) :
    (postSends plan).reqs = (List.range plan.length).map (fun i => some (Request.send i)) := by
  unfold postSends
  rw [sendLoop_reqs plan plan.length (le_refl _)]
  simp

/-- The request array handed to `MPI_Waitall` when at least one send was posted and at
least one source is incoming: the requests of all sends but the last, then the requests
of the receives, then one slot that was never assigned. -/
theorem recvLoop_reqs_final (p : Nat) (rsizes : List Int) (plan : List SendEntry)
    (hplan : plan ≠ []) (hin : (countIncoming p rsizes).num_incoming ≠ 0) :
    (recvLoop p rsizes (postSends plan).reqs).reqs
      = (List.range (plan.length - 1)).map (fun i => some (Request.send i))
          ++ (srcs rsizes p).map (fun i => some (Request.recv i)) ++ [none] := by
  have hpos : 0 < plan.length := List.length_pos.2 hplan
  have hN : (countIncoming p rsizes).num_incoming = (srcs rsizes p).length := by
    rw [countIncoming_eq]
  have hNpos : 0 < (srcs rsizes p).length := by omega
  have hS := postSends_reqs_length plan
  have hc := recvLoop_reqs_content rsizes
    (recvStart (postSends plan).reqs (countIncoming p rsizes).num_incoming)
    ((postSends plan).reqs ++ List.replicate (srcs rsizes p).length none)
    (plan.length - 1) (by simp [recvStart, hN])
    (by simp only [recvStart, hS]; omega) rfl p
    (by simp [hS])
  unfold recvLoop
  rw [hc]
  congr 1
  · congr 1
    rw [List.take_append_of_le_length (by rw [hS]; omega), postSends_reqs,
      ← List.map_take, List.take_range]
    congr 2
    omega
  · rw [show plan.length - 1 + (srcs rsizes p).length
        = (postSends plan).reqs.length + ((srcs rsizes p).length - 1) by rw [hS]; omega,
      List.drop_append, List.drop_replicate]
    rw [show (srcs rsizes p).length - ((srcs rsizes p).length - 1) = 1 by omega]
    rfl

/-- In the exchange of `exchangeAt`, a rank that posts a send whenever some plan names it
as a destination stores every request of its receives inside the request array. -/
theorem exchange_no_stray (plans : List (List SendEntry)) (ss : List (List Int)) (r : Nat)
    (hss : MPI_Alltoall ss r = plans.map (fun plan => lastCount plan r 0))
    (hposts : (∃ plan ∈ plans, ∃ e ∈ plan, e.rank = r) → plans.getD r [] ≠ []) :
    (recvLoop plans.length (MPI_Alltoall ss r) (postSends (plans.getD r [])).reqs).stray
      = [] := by
  by_cases hB : plans.getD r [] = []
  · have hnone : ∀ plan ∈ plans, ∀ e ∈ plan, e.rank ≠ r := by
      intro plan hplan e he her
      exact hposts ⟨plan, hplan, e, he, her⟩ hB
    apply recvLoop_no_stray_of_no_incoming
    rw [countIncoming_eq]
    show (srcs (MPI_Alltoall ss r) plans.length).length = 0
    rw [List.length_eq_zero, List.eq_nil_iff_forall_not_mem]
    intro i hi
    obtain ⟨hiP, hne⟩ := (mem_srcs _ _ _).1 hi
    apply hne
    rw [hss, getD_map_lists (fun plan => lastCount plan r 0) plans i [] 0 hiP]
    apply lastCount_of_not_mem
    apply hnone
    rw [List.getD_eq_getElem _ _ hiP]
    exact List.getElem_mem hiP
  · exact recvLoop_no_stray _ _ _ hB

/-- A call in a build without assertions returns MPI_SUCCESS when the destinations are in
range, the allocation succeeds, the six output pointers are non-null and either a send
was posted or nothing is incoming; the state it returns in is given field by field. -/
theorem exchange_returns_state (env : Env) (a : Args) (w : World) (hbuild : env.ndebug = true)
    (hdest : ∀ e ∈ a.plan, e.rank < env.rsizes.length)
    (hmem : env.memory ≠ NULL)
    (hslots : a.recvbuf ≠ NULL ∧ a.rrankcount ≠ NULL ∧ a.rranks ≠ NULL ∧ a.recvcounts ≠ NULL ∧
      a.rdispls ≠ NULL ∧ a.handle ≠ NULL)
    (hreq : a.plan ≠ [] ∨ (countIncoming env.rsizes.length env.rsizes).num_incoming = 0) :
    ∃ m2, DSDE_Exchange env a w = Outcome.returned MPI_SUCCESS
      { mem := m2
        mallocs := w.mallocs
          ++ [mallocSize env.extent (countIncoming env.rsizes.length env.rsizes)]
        live := env.memory :: w.live
        frees := w.frees
        alltoalls := w.alltoalls + 1
        sends := w.sends ++ (postSends a.plan).sends
        recvs := w.recvs ++ (recvLoop env.rsizes.length env.rsizes (postSends a.plan).reqs).recvs
        reqs := (recvLoop env.rsizes.length env.rsizes (postSends a.plan).reqs).reqs
        rranks := (recvLoop env.rsizes.length env.rsizes (postSends a.plan).reqs).rranks
        recvcounts := (recvLoop env.rsizes.length env.rsizes (postSends a.plan).reqs).recvcounts
        rdispls := (recvLoop env.rsizes.length env.rsizes (postSends a.plan).reqs).rdispls
        waited := some (recvLoop env.rsizes.length env.rsizes (postSends a.plan).reqs).reqs } := by
  obtain ⟨ss, hss, -, -⟩ := buildSsizes_spec _ _ hdest
  obtain ⟨h1, h2, h3, h4, h5, h6⟩ := hslots
  have hstray : (recvLoop env.rsizes.length env.rsizes (postSends a.plan).reqs).stray = [] := by
    rcases hreq with h | h
    · exact recvLoop_no_stray _ _ _ h
    · exact recvLoop_no_stray_of_no_incoming _ _ _ h
  have hdesc := (recvLoop_descriptor env.rsizes.length env.rsizes (postSends a.plan).reqs).2.2.2.2.2
  unfold DSDE_Exchange
  simp only [hss, hbuild, hmem, writeOutputs, copyVia, storeVia, h1, h2, h3, h4, h5, h6, hstray,
    hdesc, Bool.not_true, Bool.false_and, if_false, List.isEmpty_nil, Bool.or_self]
  exact ⟨_, rfl⟩

theorem exchange_returns (env : Env) (a : Args) (w : World) (hbuild : env.ndebug = true)
    (hdest : ∀ e ∈ a.plan, e.rank < env.rsizes.length)
    (hmem : env.memory ≠ NULL)
    (hslots : a.recvbuf ≠ NULL ∧ a.rrankcount ≠ NULL ∧ a.rranks ≠ NULL ∧ a.recvcounts ≠ NULL ∧
      a.rdispls ≠ NULL ∧ a.handle ≠ NULL)
    (hreq : a.plan ≠ [] ∨ (countIncoming env.rsizes.length env.rsizes).num_incoming = 0) :
    ∃ w1, DSDE_Exchange env a w = Outcome.returned MPI_SUCCESS w1 := by
  obtain ⟨m2, h⟩ := exchange_returns_state env a w hbuild hdest hmem hslots hreq
  exact ⟨_, h⟩

/-! ## Claims about the entry points -/

theorem exchange_aborts (env : Env) (a : Args) (w : World) (hbuild : env.ndebug = false)
    (hdest : ∀ e ∈ a.plan, e.rank < env.rsizes.length)
    (hptr : a.recvbuf ≠ NULL ∨ a.rranks ≠ NULL ∨ a.recvcounts ≠ NULL ∨ a.rdispls ≠ NULL) :
    DSDE_Exchange env a w = Outcome.assertFailed
      { w with alltoalls := w.alltoalls + 1, sends := w.sends ++ (postSends a.plan).sends,
               reqs := (postSends a.plan).reqs } := by
  obtain ⟨ss, hss, -, -⟩ := buildSsizes_spec _ _ hdest
  have hassert : assertionsHold a = false := by
    unfold assertionsHold
    rcases hptr with h | h | h | h <;> simp [h]
  unfold DSDE_Exchange
  simp only [hss, hbuild, hassert, Bool.not_false, Bool.and_self, if_true]

theorem writeOutputs_null (m : Memory) (a : Args) (l : Layout) (memory : Int)
    (h : a.recvbuf = NULL) : writeOutputs m a l memory = none := by
  simp [writeOutputs, copyVia, storeVia, h]

/-- In a build with assertions no call of DSDE_Exchange reaches its return statement:
either an assertion fails, or all four asserted pointers are null and line 97 stores
through a null pointer (or an earlier statement is undefined). -/
theorem exchange_with_assertions_never_returns (env : Env) (a : Args) (w : World)
    (hbuild : env.ndebug = false) : (DSDE_Exchange env a w).code = none := by
  unfold DSDE_Exchange
  cases hb : buildSsizes env.rsizes.length a.plan with
  | none => simp only [hb]; rfl
  | some ss =>
    simp only [hb, hbuild]
    by_cases ha : assertionsHold a = true
    · have hrecv : a.recvbuf = NULL := by
        unfold assertionsHold at ha
        simp only [Bool.and_eq_true, decide_eq_true_eq] at ha
        exact ha.1.1.1
      simp only [ha, Bool.not_false, Bool.not_true, Bool.and_false, Bool.false_eq_true, if_false,
        writeOutputs_null _ _ _ _ hrecv]
      split <;> rfl
    · have ha2 : assertionsHold a = false := by simpa using ha
      simp only [ha2, Bool.not_false, Bool.and_self, if_true]
      rfl

/-- C3 (the code whenever a send was posted and a source is incoming).  In a call that
runs to its return, the array passed to `MPI_Waitall` has `srankcount + num_incoming`
slots that hold the requests of all sends but the last one, then the requests of the
receives, then one slot that was never assigned: the request of the last send was
overwritten by the first receive request and is not waited on, and the last slot waited
on was filled by no posted operation. -/
theorem C3_request_array (env : Env) (a : Args) (w : World) (hbuild : env.ndebug = true)
    (hdest : ∀ e ∈ a.plan, e.rank < env.rsizes.length)
    (hmem : env.memory ≠ NULL)
    (hslots : a.recvbuf ≠ NULL ∧ a.rrankcount ≠ NULL ∧ a.rranks ≠ NULL ∧ a.recvcounts ≠ NULL ∧
      a.rdispls ≠ NULL ∧ a.handle ≠ NULL)
    (hplan : a.plan ≠ [])
    (hin : (countIncoming env.rsizes.length env.rsizes).num_incoming ≠ 0) :
    ∃ w1 l, DSDE_Exchange env a w = Outcome.returned MPI_SUCCESS w1 ∧
      w1.waited = some l ∧
      l = (List.range (a.plan.length - 1)).map (fun i => some (Request.send i))
            ++ (srcs env.rsizes env.rsizes.length).map (fun i => some (Request.recv i))
            ++ [none] ∧
      l.length = a.plan.length + (countIncoming env.rsizes.length env.rsizes).num_incoming ∧
      (postSends a.plan).reqs.getD (a.plan.length - 1) none
        = some (Request.send (a.plan.length - 1)) ∧
      some (Request.send (a.plan.length - 1)) ∉ l ∧
      none ∈ l := by
  obtain ⟨m2, h⟩ := exchange_returns_state env a w hbuild hdest hmem hslots (Or.inl hplan)
  have hfin := recvLoop_reqs_final env.rsizes.length env.rsizes a.plan hplan hin
  have hpos : 0 < a.plan.length := List.length_pos.2 hplan
  refine ⟨_, _, h, rfl, hfin, ?_, ?_, ?_, ?_⟩
  · rw [hfin, countIncoming_eq]
    simp
    omega
  · rw [postSends_reqs, List.getD_eq_getElem _ _ (by simp; omega)]
    simp
  · rw [hfin]
    simp only [List.mem_append, List.mem_map, List.mem_range, List.mem_singleton, not_or]
    refine ⟨⟨?_, ?_⟩, by simp⟩
    · rintro ⟨i, hi, heq⟩
      injection heq with heq
      injection heq with heq
      omega
    · rintro ⟨i, -, heq⟩
      injection heq with heq
      cases heq
  · rw [hfin]
    simp

/-- Witness for C3: one plan entry and one incoming source; `MPI_Waitall` is handed
`[recv 0, unset]`.  With an empty plan and one incoming source the receive request is
stored at index -1, outside the request array. -/
theorem C3_request_array_witness :
    (∃ w1 l, DSDE_Exchange (sampleEnv true [1] 0) (sampleArgs [⟨0, 1, 0⟩])
        (World.init (fun _ => 0)) = Outcome.returned MPI_SUCCESS w1 ∧
      w1.waited = some l ∧
      l = (List.range ((sampleArgs [⟨0, 1, 0⟩]).plan.length - 1)).map
              (fun i => some (Request.send i))
            ++ (srcs (sampleEnv true [1] 0).rsizes (sampleEnv true [1] 0).rsizes.length).map
              (fun i => some (Request.recv i))
            ++ [none] ∧
      l.length = (sampleArgs [⟨0, 1, 0⟩]).plan.length
        + (countIncoming (sampleEnv true [1] 0).rsizes.length
            (sampleEnv true [1] 0).rsizes).num_incoming ∧
      (postSends (sampleArgs [⟨0, 1, 0⟩]).plan).reqs.getD
          ((sampleArgs [⟨0, 1, 0⟩]).plan.length - 1) none
        = some (Request.send ((sampleArgs [⟨0, 1, 0⟩]).plan.length - 1)) ∧
      some (Request.send ((sampleArgs [⟨0, 1, 0⟩]).plan.length - 1)) ∉ l ∧
      none ∈ l) ∧
    (DSDE_Exchange (sampleEnv true [1] 0) (sampleArgs [⟨0, 1, 0⟩])
        (World.init (fun _ => 0))).world.waited = some [some (Request.recv 0), none] ∧
    (recvLoop 1 [1] (postSends []).reqs).stray = [(-1, Request.recv 0)] ∧
    (DSDE_Exchange (sampleEnv true [1] 0) (sampleArgs [])
        (World.init (fun _ => 0))).fault = some Fault.outOfBounds :=
  ⟨C3_request_array (sampleEnv true [1] 0) (sampleArgs [⟨0, 1, 0⟩]) (World.init (fun _ => 0))
      rfl (by decide) (by decide) (by decide) (by decide) (by decide),
    by decide, by decide, by decide⟩

/-- C4 (the code on a valid handle).  Let the handle variable at address `hv` hold the
address `m` of a live block whose discriminant is DSDE_HT_BUF, `m` aligned as `malloc`
results are.  `DSDE_Free(&handle)` returns MPI_SUCCESS but changes nothing: the handle
variable still holds `m`, not DSDE_HANDLE_NULL, and the block is still allocated.  Passing
the block address itself instead releases the block and then stores into the released
block, and the handle variable still holds `m`. -/
theorem C4_free_valid_handle (w : World) (hv m : Int) (hhv : hv ≠ NULL)
    (hvar : w.mem hv = m) (hm : m ≠ DSDE_HANDLE_NULL) (hlive : m ∈ w.live)
    (htype : loadInt w.mem m = DSDE_HT_BUF) (halign : m % 8 = 0) :
    ((DSDE_Free hv w).code = some MPI_SUCCESS ∧
      (DSDE_Free hv w).world.mem hv = m ∧
      (DSDE_Free hv w).world.mem hv ≠ DSDE_HANDLE_NULL ∧
      m ∈ (DSDE_Free hv w).world.live) ∧
    ((DSDE_Free m w).fault = some Fault.useAfterFree ∧
      (DSDE_Free m w).code = none ∧
      (DSDE_Free m w).world.mem hv = m) := by
  have hne : loadInt w.mem hv ≠ DSDE_HT_BUF := by
    unfold loadInt toInt32 DSDE_HT_BUF
    rw [hvar]
    omega
  have hfree : DSDE_Free hv w = Outcome.returned MPI_SUCCESS w := by
    unfold DSDE_Free
    have hhv2 : hv ≠ DSDE_HANDLE_NULL := hhv
    simp only [ne_eq, hhv2, not_false_eq_true, if_true, inspectedType, hne, if_false]
  have hblock : DSDE_Free m w
      = Outcome.undefined Fault.useAfterFree
          { w with live := w.live.erase m, frees := w.frees ++ [m] } := by
    unfold DSDE_Free
    simp only [ne_eq, hm, not_false_eq_true, if_true, inspectedType, htype, hlive]
  rw [hfree, hblock]
  exact ⟨⟨rfl, hvar, by rw [Outcome.world, hvar]; exact hm, hlive⟩, rfl, rfl, hvar⟩

/-- Witness for C4: the handle produced by a run of DSDE_Exchange (block at 4096, handle
variable at 1040), then released. -/
theorem C4_free_valid_handle_witness :
    ((DSDE_Free 1040 (DSDE_Exchange (sampleEnv true [1] 0) (sampleArgs [⟨0, 1, 0⟩])
          (World.init (fun _ => 0))).world).code = some MPI_SUCCESS ∧
      (DSDE_Free 1040 (DSDE_Exchange (sampleEnv true [1] 0) (sampleArgs [⟨0, 1, 0⟩])
          (World.init (fun _ => 0))).world).world.mem 1040 = 4096 ∧
      (DSDE_Free 1040 (DSDE_Exchange (sampleEnv true [1] 0) (sampleArgs [⟨0, 1, 0⟩])
          (World.init (fun _ => 0))).world).world.mem 1040 ≠ DSDE_HANDLE_NULL ∧
      (4096 : Int) ∈ (DSDE_Free 1040 (DSDE_Exchange (sampleEnv true [1] 0)
          (sampleArgs [⟨0, 1, 0⟩]) (World.init (fun _ => 0))).world).world.live) ∧
    ((DSDE_Free 4096 (DSDE_Exchange (sampleEnv true [1] 0) (sampleArgs [⟨0, 1, 0⟩])
          (World.init (fun _ => 0))).world).fault = some Fault.useAfterFree ∧
      (DSDE_Free 4096 (DSDE_Exchange (sampleEnv true [1] 0) (sampleArgs [⟨0, 1, 0⟩])
          (World.init (fun _ => 0))).world).code = none ∧
      (DSDE_Free 4096 (DSDE_Exchange (sampleEnv true [1] 0) (sampleArgs [⟨0, 1, 0⟩])
          (World.init (fun _ => 0))).world).world.mem 1040 = 4096) :=
  C4_free_valid_handle
    (DSDE_Exchange (sampleEnv true [1] 0) (sampleArgs [⟨0, 1, 0⟩])
      (World.init (fun _ => 0))).world 1040 4096
    (by decide) (by decide) (by decide) (by decide) (by decide) (by decide)

/-- C5 (the code on valid empty slots).  In a build with assertions, for every call whose
output pointers address valid variables that all hold null, the assertion of line 44
fails: the call is aborted, nothing is allocated and the variables are not populated. -/
theorem C5_valid_empty_slots (env : Env) (a : Args) (w : World) (hbuild : env.ndebug = false)
    (hdest : ∀ e ∈ a.plan, e.rank < env.rsizes.length)
    (hslots : a.recvbuf ≠ NULL ∧ a.rrankcount ≠ NULL ∧ a.rranks ≠ NULL ∧ a.recvcounts ≠ NULL ∧
      a.rdispls ≠ NULL ∧ a.handle ≠ NULL)
    (hempty : w.mem a.recvbuf = NULL ∧ w.mem a.rrankcount = 0 ∧ w.mem a.rranks = NULL ∧
      w.mem a.recvcounts = NULL ∧ w.mem a.rdispls = NULL) :
    (DSDE_Exchange env a w).aborted = true ∧
    (DSDE_Exchange env a w).world.mem = w.mem ∧
    (DSDE_Exchange env a w).world.mallocs = w.mallocs ∧
    (DSDE_Exchange env a w).world.mem a.recvbuf = NULL := by
  rw [exchange_aborts env a w hbuild hdest (Or.inl hslots.1)]
  exact ⟨rfl, rfl, rfl, hempty.1⟩

/-- Witness for C5: a call with six valid, empty output variables. -/
theorem C5_valid_empty_slots_witness :
    (DSDE_Exchange (sampleEnv false [1] 0) (sampleArgs [⟨0, 1, 0⟩])
        (World.init (fun _ => 0))).aborted = true ∧
    (DSDE_Exchange (sampleEnv false [1] 0) (sampleArgs [⟨0, 1, 0⟩])
        (World.init (fun _ => 0))).world.mem = (World.init (fun _ => 0)).mem ∧
    (DSDE_Exchange (sampleEnv false [1] 0) (sampleArgs [⟨0, 1, 0⟩])
        (World.init (fun _ => 0))).world.mallocs = (World.init (fun _ => 0)).mallocs ∧
    (DSDE_Exchange (sampleEnv false [1] 0) (sampleArgs [⟨0, 1, 0⟩])
        (World.init (fun _ => 0))).world.mem (sampleArgs [⟨0, 1, 0⟩]).recvbuf = NULL :=
  C5_valid_empty_slots (sampleEnv false [1] 0) (sampleArgs [⟨0, 1, 0⟩])
    (World.init (fun _ => 0)) rfl (by decide) (by decide) (by decide)

/-- Whether DSDE_Exchange is aborted by an assertion is decided by the build and the
pointer arguments alone (lines 44-47), once the loop of line 31 stayed inside the vector. -/
theorem exchange_aborted (env : Env) (a : Args) (w : World) :
    (DSDE_Exchange env a w).aborted
      = match buildSsizes env.rsizes.length a.plan with
        | none => false
        | some _ => !env.ndebug && !assertionsHold a := by
  unfold DSDE_Exchange
  cases hb : buildSsizes env.rsizes.length a.plan with
  | none => simp only [hb]; rfl
  | some ss =>
    simp only [hb]
    by_cases h1 : (!env.ndebug && !assertionsHold a) = true
    · rw [if_pos h1, h1]; rfl
    · rw [if_neg h1]
      have h1f : (!env.ndebug && !assertionsHold a) = false := by
        simpa using h1
      rw [h1f]
      by_cases h2 : env.memory = NULL
      · rw [if_pos h2]; rfl
      · rw [if_neg h2]
        split
        · rfl
        · split <;> rfl

/-- C6 (the code on non-empty slots).  DSDE_Exchange never reads what the caller's output
variables hold: lines 44-47 compare the pointer arguments with `NULL`, and nothing tests
the rank-count variable.  (1) Whether a call is aborted does not depend on the contents of
memory.  (2) In a build with `NDEBUG`, a call whose receive-buffer variable holds 7777 on
entry returns MPI_SUCCESS, and the variable has been overwritten with the address 4144 of
the payload.  (3) In a build with assertions, a call that passes null pointers for buffer,
ranks, counts and displacements and a rank-count variable holding 7 passes the four
assertions, allocates the block and then stores through the null pointer at line 97: it
is not rejected. -/
theorem C6_slots_not_inspected :
    (∀ (env : Env) (a : Args) (w : World) (m : Memory),
      (DSDE_Exchange env a { w with mem := m }).aborted = (DSDE_Exchange env a w).aborted) ∧
    ((World.init (fun x => if x = 1000 then 7777 else 0)).mem (sampleArgs [⟨0, 1, 0⟩]).recvbuf
        = 7777 ∧
      (DSDE_Exchange (sampleEnv true [1] 0) (sampleArgs [⟨0, 1, 0⟩])
          (World.init (fun x => if x = 1000 then 7777 else 0))).aborted = false ∧
      (DSDE_Exchange (sampleEnv true [1] 0) (sampleArgs [⟨0, 1, 0⟩])
          (World.init (fun x => if x = 1000 then 7777 else 0))).code = some MPI_SUCCESS ∧
      (DSDE_Exchange (sampleEnv true [1] 0) (sampleArgs [⟨0, 1, 0⟩])
          (World.init (fun x => if x = 1000 then 7777 else 0))).world.mem
            (sampleArgs [⟨0, 1, 0⟩]).recvbuf = 4144) ∧
    ((World.init (fun x => if x = 1008 then 7 else 0)).mem
          (sampleNullArgs [⟨0, 1, 0⟩]).rrankcount = 7 ∧
      assertionsHold (sampleNullArgs [⟨0, 1, 0⟩]) = true ∧
      (DSDE_Exchange (sampleEnv false [1] 0) (sampleNullArgs [⟨0, 1, 0⟩])
          (World.init (fun x => if x = 1008 then 7 else 0))).aborted = false ∧
      (DSDE_Exchange (sampleEnv false [1] 0) (sampleNullArgs [⟨0, 1, 0⟩])
          (World.init (fun x => if x = 1008 then 7 else 0))).world.mallocs = [72] ∧
      (DSDE_Exchange (sampleEnv false [1] 0) (sampleNullArgs [⟨0, 1, 0⟩])
          (World.init (fun x => if x = 1008 then 7 else 0))).fault
        = some Fault.nullDeref) := by
  refine ⟨fun env a w m => ?_, ⟨by decide, by decide, by decide, by decide⟩,
    ⟨by decide, by decide, by decide, by decide, by decide⟩⟩
  rw [exchange_aborted, exchange_aborted]

/-- C9 (as stated) fails: the all-to-all reports the failure code 16 and DSDE_Exchange
returns MPI_SUCCESS. -/
theorem C9_counterexample :
    (sampleEnv true [0] 16).rcAlltoall ≠ MPI_SUCCESS ∧
    (DSDE_Exchange (sampleEnv true [0] 16) (sampleArgs [])
        (World.init (fun _ => 0))).code = some MPI_SUCCESS ∧
    ¬ ((DSDE_Exchange (sampleEnv true [0] 16) (sampleArgs [])
        (World.init (fun _ => 0))).code = some (sampleEnv true [0] 16).rcAlltoall) := by
  decide

/-- C9 (amended): DSDE_Exchange does not look at the status codes of the transport
operations.  Whatever codes the all-to-all, the sends, the receives and the wait report,
the call ends the same way; whenever it returns it returns MPI_SUCCESS; and it does
return (in a build without assertions, with destinations in range, a successful
allocation, non-null output pointers and either a posted send or nothing incoming). -/
theorem C9_status_code (env : Env) (a : Args) (w : World) :
    (∀ (rc1 : Int) (rc2 rc3 : Nat → Int) (rc4 : Int),
      DSDE_Exchange { env with rcAlltoall := rc1, rcIsend := rc2, rcIrecv := rc3,
                               rcWaitall := rc4 } a w = DSDE_Exchange env a w) ∧
    (∀ c w1, DSDE_Exchange env a w = Outcome.returned c w1 → c = MPI_SUCCESS) ∧
    (env.ndebug = true → (∀ e ∈ a.plan, e.rank < env.rsizes.length) → env.memory ≠ NULL →
      (a.recvbuf ≠ NULL ∧ a.rrankcount ≠ NULL ∧ a.rranks ≠ NULL ∧ a.recvcounts ≠ NULL ∧
        a.rdispls ≠ NULL ∧ a.handle ≠ NULL) →
      (a.plan ≠ [] ∨ (countIncoming env.rsizes.length env.rsizes).num_incoming = 0) →
      ∃ w1, DSDE_Exchange env a w = Outcome.returned MPI_SUCCESS w1) := by
  refine ⟨?_, ?_, fun h1 h2 h3 h4 h5 => exchange_returns env a w h1 h2 h3 h4 h5⟩
  · intro rc1 rc2 rc3 rc4
    rfl
  · intro c w1 h
    unfold DSDE_Exchange at h
    cases hb : buildSsizes env.rsizes.length a.plan with
    | none => simp only [hb] at h; cases h
    | some ss =>
      simp only [hb] at h
      by_cases h1 : (!env.ndebug && !assertionsHold a) = true
      · rw [if_pos h1] at h; cases h
      · rw [if_neg h1] at h
        by_cases h2 : env.memory = NULL
        · rw [if_pos h2] at h; cases h
        · rw [if_neg h2] at h
          split at h
          · cases h
          · split at h
            · cases h
            · injection h with h3 h4
              exact h3.symm

/-! ## Releasing a null handle -/

/-- C11: DSDE_Free called on a null handle (the pointer argument is DSDE_HANDLE_NULL, or
it addresses a handle variable that holds DSDE_HANDLE_NULL) frees nothing, changes
nothing, so the handle is still null afterwards, and returns MPI_SUCCESS; a second call
on the same handle is again a no-op. -/
theorem C11_free_null_handle (w : World) (handle : Int)
    (hnull : handle = DSDE_HANDLE_NULL ∨ w.mem handle = DSDE_HANDLE_NULL) :
    DSDE_Free handle w = Outcome.returned MPI_SUCCESS w ∧
    (DSDE_Free handle w).code = some MPI_SUCCESS ∧
    (DSDE_Free handle w).world.frees = w.frees ∧
    (DSDE_Free handle w).world.live = w.live ∧
    (DSDE_Free handle w).world.mem handle = w.mem handle ∧
    DSDE_Free handle (DSDE_Free handle w).world = Outcome.returned MPI_SUCCESS w := by
  have h : DSDE_Free handle w = Outcome.returned MPI_SUCCESS w := by
    unfold DSDE_Free
    by_cases h0 : handle = DSDE_HANDLE_NULL
    · simp only [ne_eq, h0, not_true_eq_false, if_false]
    · have hmem : w.mem handle = DSDE_HANDLE_NULL := hnull.resolve_left h0
      have hne : loadInt w.mem handle ≠ DSDE_HT_BUF := by
        unfold loadInt
        rw [hmem]
        decide
      simp only [ne_eq, h0, not_false_eq_true, if_true, inspectedType, hne, if_false]
  rw [h]
  exact ⟨rfl, rfl, rfl, rfl, rfl, h⟩

/-- Witness for C11: a handle variable at address 1040 that holds DSDE_HANDLE_NULL. -/
theorem C11_free_null_handle_witness :
    DSDE_Free 1040 (World.init (fun _ => 0))
      = Outcome.returned MPI_SUCCESS (World.init (fun _ => 0)) ∧
    (DSDE_Free 1040 (World.init (fun _ => 0))).code = some MPI_SUCCESS ∧
    (DSDE_Free 1040 (World.init (fun _ => 0))).world.frees = (World.init (fun _ => 0)).frees ∧
    (DSDE_Free 1040 (World.init (fun _ => 0))).world.live = (World.init (fun _ => 0)).live ∧
    (DSDE_Free 1040 (World.init (fun _ => 0))).world.mem 1040
      = (World.init (fun _ => 0)).mem 1040 ∧
    DSDE_Free 1040 (DSDE_Free 1040 (World.init (fun _ => 0))).world
      = Outcome.returned MPI_SUCCESS (World.init (fun _ => 0)) :=
  C11_free_null_handle (World.init (fun _ => 0)) 1040 (Or.inr rfl)

/-! ## Number of descriptor entries -/

theorem srcs_length_take (rsizes : List Int) (n : Nat) (hn : n ≤ rsizes.length) :
    (srcs rsizes n).length = ((rsizes.take n).filter (fun x => decide (x ≠ 0))).length := by
  induction n with
  | zero => simp [srcs_zero]
  | succ n ih =>
    have hlt : n < rsizes.length := hn
    have hget : rsizes.getD n 0 = rsizes[n] := List.getD_eq_getElem _ _ hlt
    rw [List.take_succ, List.getElem?_eq_getElem hlt, List.filter_append, List.length_append,
      ← ih (Nat.le_of_lt hlt)]
    by_cases h0 : rsizes.getD n 0 = 0
    · rw [srcs_succ_of_eq _ _ h0]
      rw [hget] at h0
      simp [h0]
    · rw [srcs_succ_of_ne _ _ h0]
      rw [hget] at h0
      simp [h0]

theorem srcs_length_filter (rsizes : List Int) :
    (srcs rsizes rsizes.length).length = (rsizes.filter (fun x => decide (x ≠ 0))).length := by
  rw [srcs_length_take rsizes rsizes.length (le_refl _), List.take_length]

/-- C12: for every size vector, the source count DSDE_Exchange computes and stores in
the handle (from which line 98 copies `*rrankcount`) is the number of nonzero entries of
the size vector; the fill loop writes exactly that many descriptor entries, each of the
three descriptor arrays has that many slots, and no descriptor write falls outside them. -/
theorem C12_source_count (rsizes : List Int) (reqs : List (Option Request))
    (m : Memory) (memory extent : Int) :
    (countIncoming rsizes.length rsizes).num_incoming
      = (rsizes.filter (fun x => decide (x ≠ 0))).length ∧
    writeFields m (carve memory extent (countIncoming rsizes.length rsizes))
        (countIncoming rsizes.length rsizes)
        ((carve memory extent (countIncoming rsizes.length rsizes)).fields + off_rrankcount)
      = ((countIncoming rsizes.length rsizes).num_incoming : Int) ∧
    (recvLoop rsizes.length rsizes reqs).index
      = (countIncoming rsizes.length rsizes).num_incoming ∧
    (recvLoop rsizes.length rsizes reqs).rranks.length
      = (countIncoming rsizes.length rsizes).num_incoming ∧
    (recvLoop rsizes.length rsizes reqs).recvcounts.length
      = (countIncoming rsizes.length rsizes).num_incoming ∧
    (recvLoop rsizes.length rsizes reqs).rdispls.length
      = (countIncoming rsizes.length rsizes).num_incoming ∧
    (recvLoop rsizes.length rsizes reqs).strayDesc = [] := by
  obtain ⟨hr, hc, hd, hi, -, hs⟩ := recvLoop_descriptor rsizes.length rsizes reqs
  have hN : (countIncoming rsizes.length rsizes).num_incoming
      = (srcs rsizes rsizes.length).length := by rw [countIncoming_eq]
  refine ⟨by rw [hN, srcs_length_filter], ?_, by rw [hi, hN], by rw [hr, hN],
    by rw [hc, hN, List.length_map], by rw [hd, hN, offsets_length, List.length_map], hs⟩
  simp [writeFields, store, off_type, off_recvbuf, off_rrankcount, off_rranks, off_recvcounts,
    off_rdispls]

/-! ## What DSDE_Free inspects and releases -/

/-- C16 (the code on a handle produced by DSDE_Exchange).  Let the handle variable at
address `hv` hold the address `m` of the live block, whose type field is DSDE_HT_BUF, `m`
aligned as `malloc` results are.  In `DSDE_Free(&handle)` the discriminant read at line
127 is the int at the handle variable, the low-order bits of `m`, not the type field of
the block; nothing is passed to `free` and the block stays allocated.  (Passing the
block address itself does hand `m` to `free`, and then line 131 stores into the released
block.) -/
theorem C16_free_discriminant (w : World) (hv m : Int) (hhv : hv ≠ NULL)
    (hvar : w.mem hv = m) (hm : m ≠ DSDE_HANDLE_NULL) (hlive : m ∈ w.live)
    (htype : loadInt w.mem m = DSDE_HT_BUF) (halign : m % 8 = 0) :
    (inspectedType hv w = toInt32 m ∧
      inspectedType hv w ≠ loadInt w.mem m ∧
      (DSDE_Free hv w).world.frees = w.frees ∧
      m ∈ (DSDE_Free hv w).world.live) ∧
    ((DSDE_Free m w).world.frees = w.frees ++ [m] ∧
      (DSDE_Free m w).fault = some Fault.useAfterFree) := by
  have hne : loadInt w.mem hv ≠ DSDE_HT_BUF := by
    unfold loadInt toInt32 DSDE_HT_BUF
    rw [hvar]
    omega
  have hfree : DSDE_Free hv w = Outcome.returned MPI_SUCCESS w := by
    unfold DSDE_Free
    have hhv2 : hv ≠ DSDE_HANDLE_NULL := hhv
    simp only [ne_eq, hhv2, not_false_eq_true, if_true, inspectedType, hne, if_false]
  have hblock : DSDE_Free m w
      = Outcome.undefined Fault.useAfterFree
          { w with live := w.live.erase m, frees := w.frees ++ [m] } := by
    unfold DSDE_Free
    simp only [ne_eq, hm, not_false_eq_true, if_true, inspectedType, htype, hlive]
  rw [hfree, hblock]
  refine ⟨⟨?_, ?_, rfl, hlive⟩, rfl, rfl⟩
  · unfold inspectedType loadInt
    rw [hvar]
  · unfold inspectedType
    rw [htype]
    exact hne

/-- Witness for C16: the handle produced by a run of DSDE_Exchange (block at 4096, handle
variable at 1040). -/
theorem C16_free_discriminant_witness :
    (inspectedType 1040 (DSDE_Exchange (sampleEnv true [1] 0) (sampleArgs [⟨0, 1, 0⟩])
          (World.init (fun _ => 0))).world = toInt32 4096 ∧
      inspectedType 1040 (DSDE_Exchange (sampleEnv true [1] 0) (sampleArgs [⟨0, 1, 0⟩])
          (World.init (fun _ => 0))).world
        ≠ loadInt (DSDE_Exchange (sampleEnv true [1] 0) (sampleArgs [⟨0, 1, 0⟩])
            (World.init (fun _ => 0))).world.mem 4096 ∧
      (DSDE_Free 1040 (DSDE_Exchange (sampleEnv true [1] 0) (sampleArgs [⟨0, 1, 0⟩])
          (World.init (fun _ => 0))).world).world.frees
        = (DSDE_Exchange (sampleEnv true [1] 0) (sampleArgs [⟨0, 1, 0⟩])
            (World.init (fun _ => 0))).world.frees ∧
      (4096 : Int) ∈ (DSDE_Free 1040 (DSDE_Exchange (sampleEnv true [1] 0)
          (sampleArgs [⟨0, 1, 0⟩]) (World.init (fun _ => 0))).world).world.live) ∧
    ((DSDE_Free 4096 (DSDE_Exchange (sampleEnv true [1] 0) (sampleArgs [⟨0, 1, 0⟩])
          (World.init (fun _ => 0))).world).world.frees
        = (DSDE_Exchange (sampleEnv true [1] 0) (sampleArgs [⟨0, 1, 0⟩])
            (World.init (fun _ => 0))).world.frees ++ [4096] ∧
      (DSDE_Free 4096 (DSDE_Exchange (sampleEnv true [1] 0) (sampleArgs [⟨0, 1, 0⟩])
          (World.init (fun _ => 0))).world).fault = some Fault.useAfterFree) :=
  C16_free_discriminant
    (DSDE_Exchange (sampleEnv true [1] 0) (sampleArgs [⟨0, 1, 0⟩])
      (World.init (fun _ => 0))).world 1040 4096
    (by decide) (by decide) (by decide) (by decide) (by decide) (by decide)

/-! ## Where the receive requests are stored -/

theorem recvLoop_stray_inv (rsizes : List Int) (s0 : RecvLoop) (N : Nat)
    (hlen : s0.reqs.length = N) (hoff : s0.reqoffset = -1) (hs : s0.stray = [])
    (n : Nat) (hn : (srcs rsizes n).length ≤ N) :
    (forLoop n (recvBody rsizes) s0).reqs.length = N ∧
    (forLoop n (recvBody rsizes) s0).reqoffset = ((srcs rsizes n).length : Int) - 1 ∧
    (forLoop n (recvBody rsizes) s0).stray
      = ((srcs rsizes n).take 1).map (fun i => ((-1 : Int), Request.recv i)) := by
  induction n with
  | zero => simp [forLoop_zero, srcs_zero, hlen, hoff, hs]
  | succ n ih =>
    have hle : (srcs rsizes n).length ≤ N :=
      le_trans (srcs_length_mono rsizes (Nat.le_succ n)) hn
    obtain ⟨l1, o1, s1⟩ := ih hle
    rw [forLoop_succ]
    by_cases h0 : rsizes.getD n 0 = 0
    · rw [srcs_succ_of_eq _ _ h0]
      simp only [recvBody, h0, ne_eq, not_true_eq_false, if_false]
      exact ⟨l1, o1, s1⟩
    · rw [srcs_succ_of_ne _ _ h0] at hn ⊢
      simp only [List.length_append, List.length_singleton] at hn
      rcases Nat.eq_zero_or_pos (srcs rsizes n).length with hk | hk
      · have hnil : srcs rsizes n = [] := List.length_eq_zero.1 hk
        have hcond : ¬ (0 ≤ ((srcs rsizes n).length : Int) - 1 ∧
            ((srcs rsizes n).length : Int) - 1 < (N : Int)) := by omega
        simp only [recvBody, ne_eq, h0, not_false_eq_true, if_true, l1, o1, s1, hcond, if_false]
        rw [hnil]
        simp
      · have hcond : 0 ≤ ((srcs rsizes n).length : Int) - 1 ∧
            ((srcs rsizes n).length : Int) - 1 < (N : Int) := by omega
        simp only [recvBody, ne_eq, h0, not_false_eq_true, if_true, l1, o1, s1, hcond.1,
          hcond.2, and_self, List.length_set, List.length_append, List.length_singleton]
        refine ⟨trivial, by push_cast; omega, ?_⟩
        rw [List.take_append_of_le_length hk]

/-- C18 (the code when nothing was sent).  For every size vector with at least one
nonzero entry, a process whose send plan is empty stores the request of its first
receive at index -1, outside the bounds `[0, srankcount + num_incoming)` of the request
array; with a non-empty plan every receive request is stored inside the array. -/
theorem C18_receive_request_index (rsizes : List Int)
    (hin : (countIncoming rsizes.length rsizes).num_incoming ≠ 0) :
    (∃ i, i < rsizes.length ∧ rsizes.getD i 0 ≠ 0 ∧
      (recvLoop rsizes.length rsizes (postSends []).reqs).stray
        = [((-1 : Int), Request.recv i)]) ∧
    (∀ plan : List SendEntry, plan ≠ [] →
      (recvLoop rsizes.length rsizes (postSends plan).reqs).stray = []) := by
  have hN : (countIncoming rsizes.length rsizes).num_incoming
      = (srcs rsizes rsizes.length).length := by rw [countIncoming_eq]
  have hpos : (srcs rsizes rsizes.length) ≠ [] := by
    intro h
    rw [hN, h] at hin
    exact hin rfl
  refine ⟨?_, fun plan hplan => recvLoop_no_stray _ _ _ hplan⟩
  obtain ⟨i, t, hcons⟩ := List.exists_cons_of_ne_nil hpos
  have hmem : i ∈ srcs rsizes rsizes.length := by rw [hcons]; exact List.mem_cons_self _ _
  obtain ⟨hlt, hne⟩ := (mem_srcs _ _ _).1 hmem
  refine ⟨i, hlt, hne, ?_⟩
  have := (recvLoop_stray_inv rsizes
    (recvStart (postSends []).reqs (countIncoming rsizes.length rsizes).num_incoming)
    (srcs rsizes rsizes.length).length
    (by simp [recvStart, hN, postSends_reqs_length])
    (by simp [recvStart, postSends_reqs_length]) rfl rsizes.length (le_refl _)).2.2
  unfold recvLoop
  rw [this, hcons]
  rfl

/-- Witness for C18: an empty plan and the size vector `[1]`; the receive request goes to
index -1 and DSDE_Exchange runs into an out-of-bounds store. -/
theorem C18_receive_request_index_witness :
    ((∃ i, i < [(1 : Int)].length ∧ [(1 : Int)].getD i 0 ≠ 0 ∧
        (recvLoop [(1 : Int)].length [1] (postSends []).reqs).stray
          = [((-1 : Int), Request.recv i)]) ∧
      (∀ plan : List SendEntry, plan ≠ [] →
        (recvLoop [(1 : Int)].length [1] (postSends plan).reqs).stray = [])) ∧
    (DSDE_Exchange (sampleEnv true [1] 0) (sampleArgs [])
        (World.init (fun _ => 0))).fault = some Fault.outOfBounds :=
  ⟨C18_receive_request_index [1] (by decide), by decide⟩

/-! ## What has happened when a call is rejected -/

/-- C20 (as stated) fails: a call whose buffer variable holds a non-null value on entry
is rejected by the assertion, and by then the all-to-all round has been entered and the
send of the plan has been posted. -/
theorem C20_counterexample :
    (World.init (fun x => if x = 1000 then 7777 else 0)).mem (sampleArgs [⟨0, 1, 0⟩]).recvbuf
      ≠ NULL ∧
    (DSDE_Exchange (sampleEnv false [1] 0) (sampleArgs [⟨0, 1, 0⟩])
        (World.init (fun x => if x = 1000 then 7777 else 0))).aborted = true ∧
    (DSDE_Exchange (sampleEnv false [1] 0) (sampleArgs [⟨0, 1, 0⟩])
        (World.init (fun x => if x = 1000 then 7777 else 0))).world.alltoalls = 1 ∧
    (DSDE_Exchange (sampleEnv false [1] 0) (sampleArgs [⟨0, 1, 0⟩])
        (World.init (fun x => if x = 1000 then 7777 else 0))).world.sends = [⟨0, 1, 0⟩] ∧
    ¬ ((DSDE_Exchange (sampleEnv false [1] 0) (sampleArgs [⟨0, 1, 0⟩])
          (World.init (fun x => if x = 1000 then 7777 else 0))).world.alltoalls = 0 ∧
        (DSDE_Exchange (sampleEnv false [1] 0) (sampleArgs [⟨0, 1, 0⟩])
          (World.init (fun x => if x = 1000 then 7777 else 0))).world.sends = [] ∧
        (DSDE_Exchange (sampleEnv false [1] 0) (sampleArgs [⟨0, 1, 0⟩])
          (World.init (fun x => if x = 1000 then 7777 else 0))).world.mallocs = []) := by
  decide

/-- C20 (amended): whenever DSDE_Exchange rejects a call by a failed assertion, it has
allocated nothing and stored nothing in memory, but it has already entered the collective
size exchange and posted one send for every entry of the send plan. -/
theorem C20_state_at_rejection (env : Env) (a : Args) (w : World)
    (hrej : (DSDE_Exchange env a w).aborted = true) :
    (DSDE_Exchange env a w).world.mallocs = w.mallocs ∧
    (DSDE_Exchange env a w).world.live = w.live ∧
    (DSDE_Exchange env a w).world.mem = w.mem ∧
    (DSDE_Exchange env a w).world.alltoalls = w.alltoalls + 1 ∧
    (DSDE_Exchange env a w).world.sends = w.sends ++ a.plan.map SendEntry.toPost ∧
    (DSDE_Exchange env a w).world.recvs = w.recvs := by
  unfold DSDE_Exchange at hrej ⊢
  cases hb : buildSsizes env.rsizes.length a.plan with
  | none =>
    simp only [hb] at hrej
    cases hrej
  | some ss =>
    simp only [hb] at hrej ⊢
    by_cases h1 : (!env.ndebug && !assertionsHold a) = true
    · rw [if_pos h1]
      exact ⟨rfl, rfl, rfl, rfl, by rw [Outcome.world, postSends_sends], rfl⟩
    · rw [if_neg h1] at hrej
      exfalso
      by_cases h2 : env.memory = NULL
      · rw [if_pos h2] at hrej
        cases hrej
      · rw [if_neg h2] at hrej
        split at hrej
        · cases hrej
        · split at hrej
          · cases hrej
          · cases hrej

/-- Witness for C20 (amended): the rejected call of the counterexample. -/
theorem C20_state_at_rejection_witness :
    (DSDE_Exchange (sampleEnv false [1] 0) (sampleArgs [⟨0, 1, 0⟩])
        (World.init (fun x => if x = 1000 then 7777 else 0))).world.mallocs
      = (World.init (fun x => if x = 1000 then 7777 else 0)).mallocs ∧
    (DSDE_Exchange (sampleEnv false [1] 0) (sampleArgs [⟨0, 1, 0⟩])
        (World.init (fun x => if x = 1000 then 7777 else 0))).world.live
      = (World.init (fun x => if x = 1000 then 7777 else 0)).live ∧
    (DSDE_Exchange (sampleEnv false [1] 0) (sampleArgs [⟨0, 1, 0⟩])
        (World.init (fun x => if x = 1000 then 7777 else 0))).world.mem
      = (World.init (fun x => if x = 1000 then 7777 else 0)).mem ∧
    (DSDE_Exchange (sampleEnv false [1] 0) (sampleArgs [⟨0, 1, 0⟩])
        (World.init (fun x => if x = 1000 then 7777 else 0))).world.alltoalls
      = (World.init (fun x => if x = 1000 then 7777 else 0)).alltoalls + 1 ∧
    (DSDE_Exchange (sampleEnv false [1] 0) (sampleArgs [⟨0, 1, 0⟩])
        (World.init (fun x => if x = 1000 then 7777 else 0))).world.sends
      = (World.init (fun x => if x = 1000 then 7777 else 0)).sends
        ++ (sampleArgs [⟨0, 1, 0⟩]).plan.map SendEntry.toPost ∧
    (DSDE_Exchange (sampleEnv false [1] 0) (sampleArgs [⟨0, 1, 0⟩])
        (World.init (fun x => if x = 1000 then 7777 else 0))).world.recvs
      = (World.init (fun x => if x = 1000 then 7777 else 0)).recvs :=
  C20_state_at_rejection (sampleEnv false [1] 0) (sampleArgs [⟨0, 1, 0⟩])
    (World.init (fun x => if x = 1000 then 7777 else 0)) (by decide)

/-! ## A process without incoming data -/

theorem writeOutputs_some (m : Memory) (a : Args) (l : Layout) (memory : Int)
    (hslots : a.recvbuf ≠ NULL ∧ a.rrankcount ≠ NULL ∧ a.rranks ≠ NULL ∧ a.recvcounts ≠ NULL ∧
      a.rdispls ≠ NULL ∧ a.handle ≠ NULL) :
    writeOutputs m a l memory = some (publish m a l memory) := by
  obtain ⟨h1, h2, h3, h4, h5, h6⟩ := hslots
  simp only [writeOutputs, copyVia, storeVia, publish, h1, h2, h3, h4, h5, h6, if_false]

/-- The state DSDE_Exchange returns in, with the memory given explicitly. -/
theorem exchange_returns_mem (env : Env) (a : Args) (w : World) (hbuild : env.ndebug = true)
    (hdest : ∀ e ∈ a.plan, e.rank < env.rsizes.length)
    (hmem : env.memory ≠ NULL)
    (hslots : a.recvbuf ≠ NULL ∧ a.rrankcount ≠ NULL ∧ a.rranks ≠ NULL ∧ a.recvcounts ≠ NULL ∧
      a.rdispls ≠ NULL ∧ a.handle ≠ NULL)
    (hreq : a.plan ≠ [] ∨ (countIncoming env.rsizes.length env.rsizes).num_incoming = 0) :
    ∃ w1, DSDE_Exchange env a w = Outcome.returned MPI_SUCCESS w1 ∧
      w1.mem = publish
        (writeFields w.mem (carve env.memory env.extent
          (countIncoming env.rsizes.length env.rsizes))
          (countIncoming env.rsizes.length env.rsizes))
        a (carve env.memory env.extent (countIncoming env.rsizes.length env.rsizes))
        env.memory ∧
      w1.mallocs = w.mallocs
        ++ [mallocSize env.extent (countIncoming env.rsizes.length env.rsizes)] ∧
      w1.live = env.memory :: w.live ∧
      w1.rranks = (recvLoop env.rsizes.length env.rsizes (postSends a.plan).reqs).rranks ∧
      w1.recvs = w.recvs
        ++ (recvLoop env.rsizes.length env.rsizes (postSends a.plan).reqs).recvs := by
  obtain ⟨ss, hss, -, -⟩ := buildSsizes_spec _ _ hdest
  have hw := writeOutputs_some
    (writeFields w.mem (carve env.memory env.extent
      (countIncoming env.rsizes.length env.rsizes))
      (countIncoming env.rsizes.length env.rsizes))
    a (carve env.memory env.extent (countIncoming env.rsizes.length env.rsizes))
    env.memory hslots
  have hstray : (recvLoop env.rsizes.length env.rsizes (postSends a.plan).reqs).stray = [] := by
    rcases hreq with h | h
    · exact recvLoop_no_stray _ _ _ h
    · exact recvLoop_no_stray_of_no_incoming _ _ _ h
  have hdesc := (recvLoop_descriptor env.rsizes.length env.rsizes (postSends a.plan).reqs).2.2.2.2.2
  unfold DSDE_Exchange
  simp only [hss, hbuild, hmem, hw, hstray, hdesc, Bool.not_true, Bool.false_and, if_false,
    List.isEmpty_nil, Bool.or_self]
  exact ⟨_, rfl, rfl, rfl, rfl, rfl, rfl⟩

theorem countIncoming_of_all_zero (p : Nat) (rsizes : List Int) (hzero : ∀ x ∈ rsizes, x = 0) :
    countIncoming p rsizes = { rbufsize := 0, num_incoming := 0 } := by
  have hnil : srcs rsizes p = [] := by
    rw [List.eq_nil_iff_forall_not_mem]
    intro i hi
    have hne := ((mem_srcs _ _ _).1 hi).2
    apply hne
    rcases Nat.lt_or_ge i rsizes.length with hlt | hge
    · rw [List.getD_eq_getElem _ _ hlt]
      exact hzero _ (List.getElem_mem hlt)
    · exact List.getD_eq_default _ _ hge
  rw [countIncoming_eq, hnil]
  rfl

/-- C13 (as stated) fails: with the all-zero size vector `[0, 0]` the call requests a
block of `sizeof_handle = 48` bytes, gets it at 4096, reports the source count 0 and sets
the receive-buffer pointer to 4144, the first address past the block `[4096, 4144)`, not
an address inside it. -/
theorem C13_counterexample :
    (DSDE_Exchange (sampleEnv true [0, 0] 0) (sampleArgs [])
        (World.init (fun _ => 0))).code = some MPI_SUCCESS ∧
    (DSDE_Exchange (sampleEnv true [0, 0] 0) (sampleArgs [])
        (World.init (fun _ => 0))).world.mallocs = [48] ∧
    (DSDE_Exchange (sampleEnv true [0, 0] 0) (sampleArgs [])
        (World.init (fun _ => 0))).world.live = [4096] ∧
    (DSDE_Exchange (sampleEnv true [0, 0] 0) (sampleArgs [])
        (World.init (fun _ => 0))).world.mem (sampleArgs []).rrankcount = 0 ∧
    (DSDE_Exchange (sampleEnv true [0, 0] 0) (sampleArgs [])
        (World.init (fun _ => 0))).world.mem (sampleArgs []).recvbuf = 4144 ∧
    ¬ (4096 ≤ (DSDE_Exchange (sampleEnv true [0, 0] 0) (sampleArgs [])
          (World.init (fun _ => 0))).world.mem (sampleArgs []).recvbuf ∧
        (DSDE_Exchange (sampleEnv true [0, 0] 0) (sampleArgs [])
          (World.init (fun _ => 0))).world.mem (sampleArgs []).recvbuf < 4096 + 48) := by
  decide

/-- C13 (amended): for every process whose size vector is all zero, a call that runs
past the assertions (a build with NDEBUG) with a successful allocation, valid plan
destinations and six distinct output variables outside the new block returns
MPI_SUCCESS, requests exactly `sizeof(handle_dsde_exchange_t)` bytes, reports the source
count 0, posts no receive, and sets the receive-buffer pointer to the non-null address
`memory + sizeof(handle_dsde_exchange_t)`, which is the end of the allocated block: the
receive buffer is a zero-length region at the end of the block. -/
theorem C13_no_incoming (env : Env) (a : Args) (w : World) (hbuild : env.ndebug = true)
    (hzero : ∀ x ∈ env.rsizes, x = 0)
    (hdest : ∀ e ∈ a.plan, e.rank < env.rsizes.length)
    (hmem : 0 < env.memory)
    (hslots : a.recvbuf ≠ NULL ∧ a.rrankcount ≠ NULL ∧ a.rranks ≠ NULL ∧ a.recvcounts ≠ NULL ∧
      a.rdispls ≠ NULL ∧ a.handle ≠ NULL)
    (hdistinct : [a.recvbuf, a.rrankcount, a.rranks, a.recvcounts, a.rdispls, a.handle].Nodup)
    (houtside : ∀ x ∈ [a.recvbuf, a.rrankcount, a.rranks, a.recvcounts, a.rdispls, a.handle],
      x < env.memory ∨ env.memory + sizeof_handle ≤ x) :
    ∃ w1, DSDE_Exchange env a w = Outcome.returned MPI_SUCCESS w1 ∧
      w1.mallocs = w.mallocs ++ [sizeof_handle] ∧
      w1.mem a.rrankcount = 0 ∧
      w1.rranks = [] ∧
      w1.recvs = w.recvs ∧
      w1.mem a.recvbuf = env.memory + sizeof_handle ∧
      w1.mem a.recvbuf ≠ NULL ∧
      w1.mem a.recvbuf = env.memory + mallocSize env.extent
        (countIncoming env.rsizes.length env.rsizes) := by
  have hc := countIncoming_of_all_zero env.rsizes.length env.rsizes hzero
  have hmem0 : env.memory ≠ NULL := by unfold NULL; omega
  obtain ⟨w1, hret, hm, hmal, -, hrr, hrecvs⟩ :=
    exchange_returns_mem env a w hbuild hdest hmem0 hslots (Or.inr (by rw [hc]))
  obtain ⟨hrr2, -, -, -, -, -⟩ :=
    recvLoop_descriptor env.rsizes.length env.rsizes (postSends a.plan).reqs
  obtain ⟨hrecvs2, -⟩ := recvLoop_recvs env.rsizes.length env.rsizes (postSends a.plan).reqs
  have hsrcs : srcs env.rsizes env.rsizes.length = [] := by
    have := countIncoming_eq env.rsizes env.rsizes.length
    rw [hc] at this
    injection this with _ h2
    exact List.length_eq_zero.1 h2.symm
  have hsize : mallocSize env.extent (countIncoming env.rsizes.length env.rsizes)
      = sizeof_handle := by
    rw [hc]; simp [mallocSize]; decide
  simp only [List.nodup_cons, List.mem_cons, List.mem_singleton, not_or, List.not_mem_nil,
    not_false_eq_true, List.nodup_nil, and_true] at hdistinct
  obtain ⟨⟨d12, d13, d14, d15, d16⟩, ⟨d23, d24, d25, d26⟩, -⟩ := hdistinct
  have hout1 := houtside a.recvbuf (by simp)
  have h16 : ¬ (env.memory + 16 = a.recvbuf) := by
    unfold sizeof_handle at hout1; omega
  have hbuf : w1.mem a.recvbuf = env.memory + sizeof_handle := by
    rw [hm, hc]
    simp [publish, store, writeFields, carve, off_type, off_recvbuf, off_rrankcount, off_rranks,
      off_recvcounts, off_rdispls, d12, d13, d14, d15, d16]
  have hcount : w1.mem a.rrankcount = 0 := by
    rw [hm, hc]
    simp [publish, store, writeFields, carve, off_type, off_recvbuf, off_rrankcount, off_rranks,
      off_recvcounts, off_rdispls, d23, d24, d25, d26, h16]
  refine ⟨w1, hret, by rw [hmal, hsize], hcount, by rw [hrr, hrr2, hsrcs],
    by rw [hrecvs, hrecvs2, hsrcs]; simp, hbuf, ?_, by rw [hbuf, hsize]⟩
  rw [hbuf]
  unfold NULL sizeof_handle
  omega

/-- Witness for C13 (amended): the call of the counterexample. -/
theorem C13_no_incoming_witness :
    ∃ w1, DSDE_Exchange (sampleEnv true [0, 0] 0) (sampleArgs []) (World.init (fun _ => 0))
        = Outcome.returned MPI_SUCCESS w1 ∧
      w1.mallocs = (World.init (fun _ => 0)).mallocs ++ [sizeof_handle] ∧
      w1.mem (sampleArgs []).rrankcount = 0 ∧
      w1.rranks = [] ∧
      w1.recvs = (World.init (fun _ => 0)).recvs ∧
      w1.mem (sampleArgs []).recvbuf = (sampleEnv true [0, 0] 0).memory + sizeof_handle ∧
      w1.mem (sampleArgs []).recvbuf ≠ NULL ∧
      w1.mem (sampleArgs []).recvbuf = (sampleEnv true [0, 0] 0).memory
        + mallocSize (sampleEnv true [0, 0] 0).extent
            (countIncoming (sampleEnv true [0, 0] 0).rsizes.length
              (sampleEnv true [0, 0] 0).rsizes) :=
  C13_no_incoming (sampleEnv true [0, 0] 0) (sampleArgs []) (World.init (fun _ => 0))
    rfl (by decide) (by decide) (by decide) (by decide) (by decide) (by decide)

/-! ## Layout of the block -/

/-- DSDE_Exchange calls `malloc` at most once, with the size of lines 59-65. -/
theorem exchange_mallocs (env : Env) (a : Args) (w : World) :
    (DSDE_Exchange env a w).world.mallocs = w.mallocs ∨
    (DSDE_Exchange env a w).world.mallocs
      = w.mallocs ++ [mallocSize env.extent (countIncoming env.rsizes.length env.rsizes)] := by
  unfold DSDE_Exchange
  cases hb : buildSsizes env.rsizes.length a.plan with
  | none => left; simp only [hb]; rfl
  | some ss =>
    simp only [hb]
    by_cases h1 : (!env.ndebug && !assertionsHold a) = true
    · rw [if_pos h1]; left; rfl
    · rw [if_neg h1]
      right
      by_cases h2 : env.memory = NULL
      · rw [if_pos h2]; rfl
      · rw [if_neg h2]
        split
        · rfl
        · split <;> rfl

/-- C15 (as stated) fails in two ways.  For the size vector `[-1]` and extent 4,
`rbufsize * extent` is -4, so the source-rank array is carved at 4140, inside the handle
fields `[4096, 4144)`: the regions are not pairwise disjoint.  The argument of `malloc` is
a `size_t`: for the size vector `[-100]` and extent 4 the stated sum is -332 and the code
requests `2^64 - 332` bytes; for `[2147483647, 1]` and extent 4 the `int` counter
`rbufsize` has wrapped to `-2147483648`, the stated sum is negative again and the code
requests 18446744065119617112 bytes. -/
theorem C15_counterexample :
    (countIncoming 1 [-1] = { rbufsize := -1, num_incoming := 1 } ∧
      regions (carve 4096 4 (countIncoming 1 [-1]))
        = [(4096, 4144), (4144, 4140), (4140, 4144), (4144, 4152), (4152, 4160)] ∧
      ¬ (regions (carve 4096 4 (countIncoming 1 [-1]))).Pairwise
          (fun r s => ∀ x : Int, ¬ ((r.1 ≤ x ∧ x < r.2) ∧ (s.1 ≤ x ∧ x < s.2)))) ∧
    (countIncoming 1 [-100] = { rbufsize := -100, num_incoming := 1 } ∧
      sizeof_handle + (countIncoming 1 [-100]).rbufsize * 4
        + ((countIncoming 1 [-100]).num_incoming : Int) * sizeof_int
        + 2 * ((countIncoming 1 [-100]).num_incoming : Int) * sizeof_MPI_Aint = -332 ∧
      mallocSize 4 (countIncoming 1 [-100]) = 18446744073709551284 ∧
      (carve 4096 4 (countIncoming 1 [-100])).tmp = 3764) ∧
    (countIncoming 2 [2147483647, 1] = { rbufsize := -2147483648, num_incoming := 2 } ∧
      sizeof_handle + (countIncoming 2 [2147483647, 1]).rbufsize * 4
        + ((countIncoming 2 [2147483647, 1]).num_incoming : Int) * sizeof_int
        + 2 * ((countIncoming 2 [2147483647, 1]).num_incoming : Int) * sizeof_MPI_Aint
        = -8589934504 ∧
      mallocSize 4 (countIncoming 2 [2147483647, 1]) = 18446744065119617112) := by
  have hreg : regions (carve 4096 4 (countIncoming 1 [-1]))
      = [(4096, 4144), (4144, 4140), (4140, 4144), (4144, 4152), (4152, 4160)] := by decide
  refine ⟨⟨by decide, hreg, ?_⟩, ⟨by decide, by decide, by decide, by decide⟩,
    ⟨by decide, by decide, by decide⟩⟩
  rw [hreg]
  intro h
  have h1 := (List.pairwise_cons.1 h).1 (4140, 4144) (by simp) 4140
  exact h1 (by decide)

/-- C15 (amended): for every size vector and element extent, the size requested from
`malloc` is `sizeof(handle struct) + rbufsize*extent + num_incoming*sizeof(int) +
2*num_incoming*sizeof(MPI_Aint)` reduced modulo `2^64` (the argument is a `size_t`), with
`rbufsize` the `int` counter of the counting loop; the regions carved (handle fields,
payload, source ranks, counts, displacements) start at consecutive offsets in that order,
the first at the start of the block, and the last ends at the start of the block plus the
unreduced sum; whenever that sum lies in `[0, 2^64)` the size requested is the sum itself
and the last region ends exactly at the end of the allocated region; whenever the payload
size `rbufsize*extent` is not negative the regions are pairwise disjoint. -/
theorem C15_layout (rsizes : List Int) (extent memory : Int) :
    mallocSize extent (countIncoming rsizes.length rsizes)
      = toSizeT (sizeof_handle + (countIncoming rsizes.length rsizes).rbufsize * extent
        + ((countIncoming rsizes.length rsizes).num_incoming : Int) * sizeof_int
        + 2 * ((countIncoming rsizes.length rsizes).num_incoming : Int) * sizeof_MPI_Aint) ∧
    (∀ (env : Env) (a : Args) (w : World), env.rsizes = rsizes → env.extent = extent →
      ((DSDE_Exchange env a w).world.mallocs = w.mallocs ∨
        (DSDE_Exchange env a w).world.mallocs
          = w.mallocs ++ [mallocSize extent (countIncoming rsizes.length rsizes)])) ∧
    (carve memory extent (countIncoming rsizes.length rsizes)).fields = memory ∧
    (carve memory extent (countIncoming rsizes.length rsizes)).recvbuf
      = (carve memory extent (countIncoming rsizes.length rsizes)).fields + sizeof_handle ∧
    (carve memory extent (countIncoming rsizes.length rsizes)).rranks
      = (carve memory extent (countIncoming rsizes.length rsizes)).recvbuf
        + (countIncoming rsizes.length rsizes).rbufsize * extent ∧
    (carve memory extent (countIncoming rsizes.length rsizes)).recvcounts
      = (carve memory extent (countIncoming rsizes.length rsizes)).rranks
        + ((countIncoming rsizes.length rsizes).num_incoming : Int) * sizeof_int ∧
    (carve memory extent (countIncoming rsizes.length rsizes)).rdispls
      = (carve memory extent (countIncoming rsizes.length rsizes)).recvcounts
        + ((countIncoming rsizes.length rsizes).num_incoming : Int) * sizeof_MPI_Aint ∧
    (carve memory extent (countIncoming rsizes.length rsizes)).tmp
      = (carve memory extent (countIncoming rsizes.length rsizes)).rdispls
        + ((countIncoming rsizes.length rsizes).num_incoming : Int) * sizeof_MPI_Aint ∧
    (carve memory extent (countIncoming rsizes.length rsizes)).tmp
      = memory + (sizeof_handle + (countIncoming rsizes.length rsizes).rbufsize * extent
        + ((countIncoming rsizes.length rsizes).num_incoming : Int) * sizeof_int
        + 2 * ((countIncoming rsizes.length rsizes).num_incoming : Int) * sizeof_MPI_Aint) ∧
    (0 ≤ sizeof_handle + (countIncoming rsizes.length rsizes).rbufsize * extent
          + ((countIncoming rsizes.length rsizes).num_incoming : Int) * sizeof_int
          + 2 * ((countIncoming rsizes.length rsizes).num_incoming : Int) * sizeof_MPI_Aint ∧
        sizeof_handle + (countIncoming rsizes.length rsizes).rbufsize * extent
          + ((countIncoming rsizes.length rsizes).num_incoming : Int) * sizeof_int
          + 2 * ((countIncoming rsizes.length rsizes).num_incoming : Int) * sizeof_MPI_Aint
          < 18446744073709551616 →
      mallocSize extent (countIncoming rsizes.length rsizes)
        = sizeof_handle + (countIncoming rsizes.length rsizes).rbufsize * extent
          + ((countIncoming rsizes.length rsizes).num_incoming : Int) * sizeof_int
          + 2 * ((countIncoming rsizes.length rsizes).num_incoming : Int) * sizeof_MPI_Aint ∧
      (carve memory extent (countIncoming rsizes.length rsizes)).tmp
        = memory + mallocSize extent (countIncoming rsizes.length rsizes)) ∧
    (0 ≤ (countIncoming rsizes.length rsizes).rbufsize * extent →
      (regions (carve memory extent (countIncoming rsizes.length rsizes))).Pairwise
        (fun r s => ∀ x : Int, ¬ ((r.1 ≤ x ∧ x < r.2) ∧ (s.1 ≤ x ∧ x < s.2)))) := by
  have hsize : mallocSize extent (countIncoming rsizes.length rsizes)
      = toSizeT (sizeof_handle + (countIncoming rsizes.length rsizes).rbufsize * extent
        + ((countIncoming rsizes.length rsizes).num_incoming : Int) * sizeof_int
        + 2 * ((countIncoming rsizes.length rsizes).num_incoming : Int) * sizeof_MPI_Aint) := by
    unfold mallocSize
    congr 1
    ring
  have htmp : (carve memory extent (countIncoming rsizes.length rsizes)).tmp
      = memory + (sizeof_handle + (countIncoming rsizes.length rsizes).rbufsize * extent
        + ((countIncoming rsizes.length rsizes).num_incoming : Int) * sizeof_int
        + 2 * ((countIncoming rsizes.length rsizes).num_incoming : Int) * sizeof_MPI_Aint) := by
    simp only [carve]; ring
  refine ⟨hsize, ?_, rfl, rfl, rfl, ?_, ?_, ?_, htmp, ?_, ?_⟩
  · intro env a w hr he
    subst hr; subst he
    exact exchange_mallocs env a w
  · simp only [carve]; ring
  · simp only [carve]; ring
  · simp only [carve]; ring
  · intro hfit
    have heq := toSizeT_of_range _ hfit.1 hfit.2
    refine ⟨by rw [hsize, heq], ?_⟩
    rw [htmp, hsize, heq]
  · intro hnn
    have hn : (0 : Int) ≤ ((countIncoming rsizes.length rsizes).num_incoming : Int) :=
      Int.ofNat_nonneg _
    simp only [regions, carve, sizeof_handle, sizeof_int, sizeof_MPI_Aint, List.pairwise_cons,
      List.mem_cons, List.mem_singleton, List.not_mem_nil, forall_eq_or_imp, forall_eq,
      IsEmpty.forall_iff, implies_true, List.Pairwise.nil, and_true]
    refine ⟨⟨?_, ?_, ?_, ?_⟩, ⟨?_, ?_, ?_⟩, ⟨?_, ?_⟩, ?_⟩ <;> intro x <;> omega

/-! ## Byte ranges of the receives -/

theorem getD_nonneg_of_forall (rsizes : List Int) (hnn : ∀ x ∈ rsizes, 0 ≤ x) (i : Nat) :
    0 ≤ rsizes.getD i 0 := by
  rcases Nat.lt_or_ge i rsizes.length with hlt | hge
  · rw [List.getD_eq_getElem _ _ hlt]
    exact hnn _ (List.getElem_mem hlt)
  · rw [List.getD_eq_default _ _ hge]

/-- C17 (as stated) fails: for the size vector `[2147483647, 1]` (non-negative counts)
and extent 1 the `int` counter `rbufsize` wraps to `-2147483648`, and the byte range
`[0, 2147483647)` of the first receive does not lie inside a payload region of
`rbufsize*extent` bytes. -/
theorem C17_counterexample :
    (∀ x ∈ [(2147483647 : Int), 1], 0 ≤ x) ∧
    (recvLoop 2 [2147483647, 1] [some (Request.send 0)]).recvs
      = [⟨0, 2147483647, 0⟩, ⟨1, 1, 2147483647⟩] ∧
    (recvLoop 2 [2147483647, 1] [some (Request.send 0)]).rdispls = [0, 2147483647] ∧
    (recvLoop 2 [2147483647, 1] [some (Request.send 0)]).recvcounts = [2147483647, 1] ∧
    (countIncoming 2 [2147483647, 1]).rbufsize * 1 = -2147483648 ∧
    ¬ (1 * ((recvLoop 2 [2147483647, 1] [some (Request.send 0)]).rdispls.getD 0 0
          + (recvLoop 2 [2147483647, 1] [some (Request.send 0)]).recvcounts.getD 0 0)
        ≤ (countIncoming 2 [2147483647, 1]).rbufsize * 1) := by
  decide

/-- C17 (amended): for every size vector with non-negative counts whose total fits in an
`int` and every positive element extent, the byte ranges
`[extent*rdispls[k], extent*(rdispls[k]+recvcounts[k]))` of the receives DSDE_Exchange
posts (receive `k` is posted from source `rranks[k]` with count `recvcounts[k]` at element
offset `rdispls[k]`) lie inside the payload region of `rbufsize*extent` bytes and are
pairwise disjoint: each range ends where or before the next one starts. -/
theorem C17_receive_ranges (rsizes : List Int) (reqs : List (Option Request)) (extent : Int)
    (hnn : ∀ x ∈ rsizes, 0 ≤ x) (hext : 0 < extent) (htotal : rsizes.sum ≤ 2147483647) :
    (recvLoop rsizes.length rsizes reqs).recvs.length
      = (recvLoop rsizes.length rsizes reqs).rdispls.length ∧
    (∀ k, k < (recvLoop rsizes.length rsizes reqs).rdispls.length →
      (recvLoop rsizes.length rsizes reqs).recvs.getD k ⟨0, 0, 0⟩
        = { source := (recvLoop rsizes.length rsizes reqs).rranks.getD k 0
            count := (recvLoop rsizes.length rsizes reqs).recvcounts.getD k 0
            offset := (recvLoop rsizes.length rsizes reqs).rdispls.getD k 0 }) ∧
    (∀ k, k < (recvLoop rsizes.length rsizes reqs).rdispls.length →
      0 ≤ extent * (recvLoop rsizes.length rsizes reqs).rdispls.getD k 0 ∧
      extent * ((recvLoop rsizes.length rsizes reqs).rdispls.getD k 0
          + (recvLoop rsizes.length rsizes reqs).recvcounts.getD k 0)
        ≤ (countIncoming rsizes.length rsizes).rbufsize * extent) ∧
    (∀ j k, j < k → k < (recvLoop rsizes.length rsizes reqs).rdispls.length →
      extent * ((recvLoop rsizes.length rsizes reqs).rdispls.getD j 0
          + (recvLoop rsizes.length rsizes reqs).recvcounts.getD j 0)
        ≤ extent * (recvLoop rsizes.length rsizes reqs).rdispls.getD k 0) ∧
    (∀ j k, j ≠ k → j < (recvLoop rsizes.length rsizes reqs).rdispls.length →
      k < (recvLoop rsizes.length rsizes reqs).rdispls.length →
      ∀ x : Int,
        ¬ ((extent * (recvLoop rsizes.length rsizes reqs).rdispls.getD j 0 ≤ x ∧
            x < extent * ((recvLoop rsizes.length rsizes reqs).rdispls.getD j 0
              + (recvLoop rsizes.length rsizes reqs).recvcounts.getD j 0)) ∧
          (extent * (recvLoop rsizes.length rsizes reqs).rdispls.getD k 0 ≤ x ∧
            x < extent * ((recvLoop rsizes.length rsizes reqs).rdispls.getD k 0
              + (recvLoop rsizes.length rsizes reqs).recvcounts.getD k 0)))) := by
  obtain ⟨hr, hc, -, -, -, -⟩ := recvLoop_descriptor rsizes.length rsizes reqs
  obtain ⟨hrecvs, hd⟩ := recvLoop_recvs rsizes.length rsizes reqs
  have hnn' : ∀ i, 0 ≤ rsizes.getD i 0 := getD_nonneg_of_forall rsizes hnn
  have hrb : (countIncoming rsizes.length rsizes).rbufsize = offsetAt rsizes rsizes.length := by
    have h0 := offsetAt_mono rsizes hnn' (Nat.zero_le rsizes.length)
    rw [offsetAt_zero] at h0
    have hsum : offsetAt rsizes rsizes.length = rsizes.sum := srcs_sum rsizes
    rw [countIncoming_eq]
    exact toInt32_of_range (offsetAt rsizes rsizes.length) (by omega) (by omega)
  rw [hr, hc, hd, hrecvs, hrb]
  simp only [List.length_map]
  -- entry `k` of the three arrays, by source rank
  have hdk : ∀ k (hk : k < (srcs rsizes rsizes.length).length),
      ((srcs rsizes rsizes.length).map (offsetAt rsizes)).getD k 0
        = offsetAt rsizes ((srcs rsizes rsizes.length)[k]) := by
    intro k hk
    rw [List.getD_eq_getElem _ _ (by simpa using hk)]
    simp
  have hck : ∀ k (hk : k < (srcs rsizes rsizes.length).length),
      ((srcs rsizes rsizes.length).map (fun i => rsizes.getD i 0)).getD k 0
        = rsizes.getD ((srcs rsizes rsizes.length)[k]) 0 := by
    intro k hk
    rw [List.getD_eq_getElem _ _ (by simpa using hk)]
    simp
  have hrk : ∀ k (hk : k < (srcs rsizes rsizes.length).length),
      (srcs rsizes rsizes.length).getD k 0 = (srcs rsizes rsizes.length)[k] := by
    intro k hk
    exact List.getD_eq_getElem _ _ hk
  have hlt : ∀ k (hk : k < (srcs rsizes rsizes.length).length),
      (srcs rsizes rsizes.length)[k] < rsizes.length := by
    intro k hk
    exact ((mem_srcs _ _ _).1 (List.getElem_mem hk)).1
  have hend : ∀ k (hk : k < (srcs rsizes rsizes.length).length),
      offsetAt rsizes ((srcs rsizes rsizes.length)[k])
          + rsizes.getD ((srcs rsizes rsizes.length)[k]) 0
        = offsetAt rsizes ((srcs rsizes rsizes.length)[k] + 1) := by
    intro k hk
    rw [offsetAt_succ]
  have horder : ∀ j k (hjk : j < k) (hk : k < (srcs rsizes rsizes.length).length),
      offsetAt rsizes ((srcs rsizes rsizes.length)[j]) + rsizes.getD ((srcs rsizes rsizes.length)[j]) 0
        ≤ offsetAt rsizes ((srcs rsizes rsizes.length)[k]) := by
    intro j k hjk hk
    have hj : j < (srcs rsizes rsizes.length).length := lt_trans hjk hk
    have hsrc : (srcs rsizes rsizes.length)[j] < (srcs rsizes rsizes.length)[k] :=
      (List.pairwise_iff_getElem.1 (srcs_pairwise rsizes rsizes.length)) j k hj hk hjk
    rw [hend j hj]
    exact offsetAt_mono rsizes hnn' (Nat.succ_le_of_lt hsrc)
  have hordermul : ∀ j k (hjk : j < k) (hk : k < (srcs rsizes rsizes.length).length),
      extent * (((srcs rsizes rsizes.length).map (offsetAt rsizes)).getD j 0
          + ((srcs rsizes rsizes.length).map (fun i => rsizes.getD i 0)).getD j 0)
        ≤ extent * ((srcs rsizes rsizes.length).map (offsetAt rsizes)).getD k 0 := by
    intro j k hjk hk
    have hj : j < (srcs rsizes rsizes.length).length := lt_trans hjk hk
    rw [hdk j hj, hck j hj, hdk k hk]
    exact mul_le_mul_of_nonneg_left (horder j k hjk hk) (le_of_lt hext)
  refine ⟨trivial, ?_, ?_, hordermul, ?_⟩
  · intro k hk
    rw [List.getD_eq_getElem _ _ (by simpa using hk), hrk k hk, hck k hk, hdk k hk]
    simp
  · intro k hk
    rw [hdk k hk, hck k hk]
    constructor
    · have h0 := offsetAt_mono rsizes hnn' (Nat.zero_le ((srcs rsizes rsizes.length)[k]))
      rw [offsetAt_zero] at h0
      exact mul_nonneg (le_of_lt hext) h0
    · rw [hend k hk, mul_comm]
      exact mul_le_mul_of_nonneg_right
        (offsetAt_mono rsizes hnn' (Nat.succ_le_of_lt (hlt k hk))) (le_of_lt hext)
  · intro j k hjk hj hk x
    rcases Nat.lt_or_gt_of_ne hjk with h | h
    · have := hordermul j k h hk
      omega
    · have := hordermul k j h hj
      omega

/-- Witness for C17 (amended): the size vector `[3, 0, 5]` with extent 4, on a process
that posted one send. -/
theorem C17_receive_ranges_witness :
    (recvLoop [(3 : Int), 0, 5].length [3, 0, 5] [some (Request.send 0)]).recvs.length
      = (recvLoop [(3 : Int), 0, 5].length [3, 0, 5] [some (Request.send 0)]).rdispls.length ∧
    (∀ k, k < (recvLoop [(3 : Int), 0, 5].length [3, 0, 5] [some (Request.send 0)]).rdispls.length →
      (recvLoop [(3 : Int), 0, 5].length [3, 0, 5] [some (Request.send 0)]).recvs.getD k ⟨0, 0, 0⟩
        = { source := (recvLoop [(3 : Int), 0, 5].length [3, 0, 5] [some (Request.send 0)]).rranks.getD k 0
            count := (recvLoop [(3 : Int), 0, 5].length [3, 0, 5] [some (Request.send 0)]).recvcounts.getD k 0
            offset := (recvLoop [(3 : Int), 0, 5].length [3, 0, 5] [some (Request.send 0)]).rdispls.getD k 0 }) ∧
    (∀ k, k < (recvLoop [(3 : Int), 0, 5].length [3, 0, 5] [some (Request.send 0)]).rdispls.length →
      0 ≤ 4 * (recvLoop [(3 : Int), 0, 5].length [3, 0, 5] [some (Request.send 0)]).rdispls.getD k 0 ∧
      4 * ((recvLoop [(3 : Int), 0, 5].length [3, 0, 5] [some (Request.send 0)]).rdispls.getD k 0
          + (recvLoop [(3 : Int), 0, 5].length [3, 0, 5] [some (Request.send 0)]).recvcounts.getD k 0)
        ≤ (countIncoming [(3 : Int), 0, 5].length [3, 0, 5]).rbufsize * 4) ∧
    (∀ j k, j < k → k < (recvLoop [(3 : Int), 0, 5].length [3, 0, 5] [some (Request.send 0)]).rdispls.length →
      4 * ((recvLoop [(3 : Int), 0, 5].length [3, 0, 5] [some (Request.send 0)]).rdispls.getD j 0
          + (recvLoop [(3 : Int), 0, 5].length [3, 0, 5] [some (Request.send 0)]).recvcounts.getD j 0)
        ≤ 4 * (recvLoop [(3 : Int), 0, 5].length [3, 0, 5] [some (Request.send 0)]).rdispls.getD k 0) ∧
    (∀ j k, j ≠ k → j < (recvLoop [(3 : Int), 0, 5].length [3, 0, 5] [some (Request.send 0)]).rdispls.length →
      k < (recvLoop [(3 : Int), 0, 5].length [3, 0, 5] [some (Request.send 0)]).rdispls.length →
      ∀ x : Int,
        ¬ ((4 * (recvLoop [(3 : Int), 0, 5].length [3, 0, 5] [some (Request.send 0)]).rdispls.getD j 0 ≤ x ∧
            x < 4 * ((recvLoop [(3 : Int), 0, 5].length [3, 0, 5] [some (Request.send 0)]).rdispls.getD j 0
              + (recvLoop [(3 : Int), 0, 5].length [3, 0, 5] [some (Request.send 0)]).recvcounts.getD j 0)) ∧
          (4 * (recvLoop [(3 : Int), 0, 5].length [3, 0, 5] [some (Request.send 0)]).rdispls.getD k 0 ≤ x ∧
            x < 4 * ((recvLoop [(3 : Int), 0, 5].length [3, 0, 5] [some (Request.send 0)]).rdispls.getD k 0
              + (recvLoop [(3 : Int), 0, 5].length [3, 0, 5] [some (Request.send 0)]).recvcounts.getD k 0)))) :=
  C17_receive_ranges [3, 0, 5] [some (Request.send 0)] 4 (by decide) (by decide) (by decide)

/-! ## Every rank sends one element to every other rank -/

theorem lastCount_of_mem_const (plan : List SendEntry) (r : Nat) (c : Int)
    (hc : ∀ e ∈ plan, e.count = c) :
    ∀ v : Int, (∃ e ∈ plan, e.rank = r) → lastCount plan r v = toInt32 c := by
  induction plan with
  | nil => intro v h; obtain ⟨e, he, -⟩ := h; simp at he
  | cons a t ih =>
    intro v h
    have hct : ∀ e ∈ t, e.count = c := fun e he => hc e (List.mem_cons_of_mem _ he)
    simp only [lastCount, List.foldl_cons]
    by_cases ht : ∃ e ∈ t, e.rank = r
    · exact ih hct _ ht
    · have hno : ∀ e ∈ t, e.rank ≠ r := fun e he heq => ht ⟨e, he, heq⟩
      have ha : a.rank = r := by
        obtain ⟨e, he, her⟩ := h
        rcases List.mem_cons.1 he with rfl | he'
        · exact her
        · exact absurd her (hno e he')
      have := lastCount_of_not_mem t r (if a.rank = r then toInt32 a.count else v) hno
      unfold lastCount at this
      rw [this, if_pos ha, hc a (List.mem_cons_self _ _)]

theorem length_filter_ne_range (P r : Nat) (hr : r < P) :
    ((List.range P).filter (fun s => decide (s ≠ r))).length = P - 1 := by
  have h1 := List.length_eq_countP_add_countP (p := fun s => decide (s = r)) (List.range P)
  have h2 : List.countP (fun s => decide (s = r)) (List.range P) = 1 := by
    rw [List.countP_eq_length_filter, List.filter_eq,
      List.count_eq_one_of_mem (List.nodup_range P) (List.mem_range.2 hr)]
    rfl
  have h3 : List.countP (fun a => decide ¬(fun s => decide (s = r)) a = true) (List.range P)
      = ((List.range P).filter (fun s => decide (s ≠ r))).length := by
    rw [List.countP_eq_length_filter]
    congr 1
    apply List.filter_congr
    intro x _
    simp
  rw [List.length_range, h2, h3] at h1
  omega

theorem offsets_replicate_one (n : Nat) :
    offsets (List.replicate n (1 : Int)) = (List.range n).map (fun (k : Nat) => (k : Int)) := by
  unfold offsets
  rw [List.length_replicate]
  apply List.map_congr_left
  intro k hk
  rw [List.mem_range] at hk
  rw [List.take_replicate, List.sum_replicate, min_eq_left (le_of_lt hk)]
  simp

/-- C14: for every group size P >= 2, when the plan of every rank `s` names every other
rank exactly once (in any order) with count 1 and never `s` itself, the descriptor of
every rank `r` has P-1 entries: the source ranks are all ranks other than `r` in
ascending order, the counts are all 1, and the displacements are 0, 1, ..., P-2. -/
theorem C14_all_to_all (plans : List (List SendEntry)) (r : Nat) (hP : 2 ≤ plans.length)
    (hr : r < plans.length)
    (hB : ∀ s, s < plans.length →
      ((plans.getD s []).map (fun e => e.rank)).Perm
          ((List.range plans.length).filter (fun t => decide (t ≠ s))) ∧
        ∀ e ∈ plans.getD s [], e.count = 1) :
    ∃ d, exchangeAt plans r = some d ∧
      d.rranks = (List.range plans.length).filter (fun s => decide (s ≠ r)) ∧
      d.rranks.length = plans.length - 1 ∧
      d.recvcounts = List.replicate (plans.length - 1) 1 ∧
      d.rdispls = (List.range (plans.length - 1)).map (fun (k : Nat) => (k : Int)) := by
  have hgroup : 1 ≤ plans.length := le_trans (by decide) hP
  -- destinations are in range
  have hmemrank : ∀ s, s < plans.length → ∀ t,
      (∃ e ∈ plans.getD s [], e.rank = t) ↔ (t < plans.length ∧ t ≠ s) := by
    intro s hs t
    have hperm := (hB s hs).1.mem_iff (a := t)
    simp only [List.mem_map, List.mem_filter, List.mem_range, decide_eq_true_eq] at hperm
    exact hperm
  have hdest : ∀ plan ∈ plans, ∀ e ∈ plan, e.rank < plans.length := by
    intro plan hplan e he
    obtain ⟨s, hs, rfl⟩ := List.getElem_of_mem hplan
    have hget : plans.getD s [] = plans[s] := List.getD_eq_getElem _ _ hs
    exact ((hmemrank s hs e.rank).1 ⟨e, by rw [hget]; exact he, rfl⟩).1
  obtain ⟨ss, h1, h2⟩ := allSsizes_spec plans.length plans hdest
  refine ⟨recvLoop plans.length (MPI_Alltoall ss r) (postSends (plans.getD r [])).reqs,
    by simp only [exchangeAt, h1], ?_⟩
  -- the size vector of rank r
  have hrs : ∀ s, s < plans.length →
      (MPI_Alltoall ss r).getD s 0 = if s ≠ r then 1 else 0 := by
    intro s hs
    rw [h2 r, getD_map_lists (fun plan => lastCount plan r 0) plans s [] 0 hs]
    by_cases hsr : s = r
    · rw [if_neg (not_not.2 hsr)]
      apply lastCount_of_not_mem
      intro e he her
      exact ((hmemrank s hs r).1 ⟨e, he, her⟩).2 hsr.symm
    · rw [if_pos hsr]
      exact lastCount_of_mem_const _ r 1 (hB s hs).2 0
        ((hmemrank s hs r).2 ⟨hr, fun h => hsr h.symm⟩)
  have hsrcs : srcs (MPI_Alltoall ss r) plans.length
      = (List.range plans.length).filter (fun s => decide (s ≠ r)) := by
    unfold srcs
    apply List.filter_congr
    intro s hs
    rw [List.mem_range] at hs
    rw [hrs s hs]
    by_cases hsr : s = r <;> simp [hsr]
  obtain ⟨hrr, hcnt, hdis, -, -, -⟩ :=
    recvLoop_descriptor plans.length (MPI_Alltoall ss r) (postSends (plans.getD r [])).reqs
  have hlen := length_filter_ne_range plans.length r hr
  have hcounts : (srcs (MPI_Alltoall ss r) plans.length).map
      (fun i => (MPI_Alltoall ss r).getD i 0) = List.replicate (plans.length - 1) 1 := by
    rw [List.eq_replicate_iff]
    refine ⟨by rw [List.length_map, hsrcs, hlen], ?_⟩
    intro b hb
    obtain ⟨i, hi, rfl⟩ := List.mem_map.1 hb
    rw [hsrcs, List.mem_filter, List.mem_range, decide_eq_true_eq] at hi
    rw [hrs i hi.1, if_pos hi.2]
  refine ⟨by rw [hrr, hsrcs], by rw [hrr, hsrcs, hlen], by rw [hcnt, hcounts], ?_⟩
  rw [hdis, hcounts, offsets_replicate_one]

/-- Witness for C14: three ranks, rank 1. -/
theorem C14_all_to_all_witness :
    ∃ d, exchangeAt [[⟨2, 1, 0⟩, ⟨1, 1, 1⟩], [⟨0, 1, 0⟩, ⟨2, 1, 1⟩], [⟨0, 1, 0⟩, ⟨1, 1, 1⟩]] 1
        = some d ∧
      d.rranks = (List.range
        [[(⟨2, 1, 0⟩ : SendEntry), ⟨1, 1, 1⟩], [⟨0, 1, 0⟩, ⟨2, 1, 1⟩],
          [⟨0, 1, 0⟩, ⟨1, 1, 1⟩]].length).filter (fun s => decide (s ≠ 1)) ∧
      d.rranks.length
        = [[(⟨2, 1, 0⟩ : SendEntry), ⟨1, 1, 1⟩], [⟨0, 1, 0⟩, ⟨2, 1, 1⟩],
            [⟨0, 1, 0⟩, ⟨1, 1, 1⟩]].length - 1 ∧
      d.recvcounts = List.replicate
        ([[(⟨2, 1, 0⟩ : SendEntry), ⟨1, 1, 1⟩], [⟨0, 1, 0⟩, ⟨2, 1, 1⟩],
          [⟨0, 1, 0⟩, ⟨1, 1, 1⟩]].length - 1) 1 ∧
      d.rdispls = (List.range
        ([[(⟨2, 1, 0⟩ : SendEntry), ⟨1, 1, 1⟩], [⟨0, 1, 0⟩, ⟨2, 1, 1⟩],
          [⟨0, 1, 0⟩, ⟨1, 1, 1⟩]].length - 1)).map (fun (k : Nat) => (k : Int)) :=
  C14_all_to_all [[⟨2, 1, 0⟩, ⟨1, 1, 1⟩], [⟨0, 1, 0⟩, ⟨2, 1, 1⟩], [⟨0, 1, 0⟩, ⟨1, 1, 1⟩]] 1
    (by decide) (by decide) (by decide)

/-! ## Matching of posted sends and receives -/

theorem filter_rank_of_nodup (plan : List SendEntry) (e : SendEntry)
    (hnd : (plan.map (fun x => x.rank)).Nodup) (he : e ∈ plan) :
    plan.filter (fun x => decide (x.rank = e.rank)) = [e] := by
  induction plan with
  | nil => simp at he
  | cons a t ih =>
    rw [List.map_cons, List.nodup_cons] at hnd
    have hnot : ∀ x ∈ t, x.rank ≠ a.rank := by
      intro x hx heq
      exact hnd.1 (List.mem_map.2 ⟨x, hx, heq⟩)
    rcases List.mem_cons.1 he with rfl | het
    · have hf : t.filter (fun x => decide (x.rank = e.rank)) = [] := by
        rw [List.filter_eq_nil_iff]
        intro x hx
        simpa using hnot x hx
      have h1 : decide (e.rank = e.rank) = true := by simp
      rw [List.filter_cons_of_pos (p := fun x : SendEntry => decide (x.rank = e.rank)) h1, hf]
    · have hae : a.rank ≠ e.rank := fun h => hnot e het h.symm
      have h1 : ¬ decide (a.rank = e.rank) = true := by simpa using hae
      rw [List.filter_cons_of_neg (p := fun x : SendEntry => decide (x.rank = e.rank)) h1]
      exact ih hnd.2 het

theorem filter_eq_singleton_of_nodup (l : List Nat) (s : Nat) (hnd : l.Nodup) (hs : s ∈ l) :
    l.filter (fun i => decide (i = s)) = [s] := by
  rw [List.filter_eq, List.count_eq_one_of_mem hnd hs]
  rfl

/-- C19 (as stated) fails for the two kinds of plan it names, for a count that the
narrowing to `int` turns into zero, and on a receiving rank that posts no send.  A
zero-count entry: rank 0 posts a send of count 0 to rank 1, and rank 1 posts no receive.
Two entries for one destination: rank 0 posts two sends to rank 1 (counts 3 and 5), and
rank 1 posts one receive from rank 0, of count 5.  The count `2^32`: a single rank posts a
send to itself whose `int` count is 0 (line 41), stores 0 in its size vector (line 31) and
posts no receive.  A receiver without sends: rank 0 sends 5 elements to rank 1, whose plan
is empty; line 110 on rank 1 stores the request of the receive at index -1, outside the
request array, so the behaviour of the call that posts the receive is undefined. -/
theorem C19_counterexample :
    ((postSends [⟨1, 0, 0⟩]).sends = [⟨1, 0, 0⟩] ∧
      (exchangeAt [[⟨1, 0, 0⟩], []] 1).map (fun d => d.recvs) = some [] ∧
      ¬ (∃ d, exchangeAt [[⟨1, 0, 0⟩], []] 1 = some d ∧
          (d.recvs.filter (fun rp => decide (rp.source = 0 ∧ rp.count = 0))).length = 1)) ∧
    ((postSends [⟨1, 3, 0⟩, ⟨1, 5, 3⟩]).sends = [⟨1, 3, 0⟩, ⟨1, 5, 3⟩] ∧
      (exchangeAt [[⟨1, 3, 0⟩, ⟨1, 5, 3⟩], [⟨0, 1, 0⟩]] 1).map (fun d => d.recvs)
        = some [⟨0, 5, 0⟩] ∧
      ¬ (∃ d, exchangeAt [[⟨1, 3, 0⟩, ⟨1, 5, 3⟩], [⟨0, 1, 0⟩]] 1 = some d ∧
          (d.recvs.filter (fun rp => decide (rp.source = 0 ∧ rp.count = 3))).length = 1)) ∧
    ((⟨0, 4294967296, 0⟩ : SendEntry).count ≠ 0 ∧
      (postSends [⟨0, 4294967296, 0⟩]).sends = [⟨0, 0, 0⟩] ∧
      (exchangeAt [[⟨0, 4294967296, 0⟩]] 0).map (fun d => d.recvs) = some [] ∧
      ¬ (∃ d, exchangeAt [[⟨0, 4294967296, 0⟩]] 0 = some d ∧
          (d.recvs.filter (fun rp => decide (rp.source = 0))).length = 1)) ∧
    ((postSends [⟨1, 5, 3⟩]).sends = [⟨1, 5, 3⟩] ∧
      (exchangeAt [[⟨1, 5, 3⟩], []] 1).map (fun d => (d.recvs, d.stray))
        = some ([⟨0, 5, 0⟩], [(-1, Request.recv 0)]) ∧
      (DSDE_Exchange (sampleEnv true [5, 0] 0) (sampleArgs [])
          (World.init (fun _ => 0))).fault = some Fault.outOfBounds ∧
      ¬ (∃ d, exchangeAt [[⟨1, 5, 3⟩], []] 1 = some d ∧ d.stray = [])) := by
  refine ⟨⟨by decide, by decide, ?_⟩, ⟨by decide, by decide, ?_⟩,
    ⟨by decide, by decide, by decide, ?_⟩, ⟨by decide, by decide, by decide, ?_⟩⟩
  · rintro ⟨d, hd, hlen⟩
    have h : (exchangeAt [[⟨1, 0, 0⟩], []] 1).map (fun d => d.recvs) = some [] := by decide
    rw [hd] at h
    simp only [Option.map_some', Option.some.injEq] at h
    rw [h] at hlen
    simp at hlen
  · rintro ⟨d, hd, hlen⟩
    have h : (exchangeAt [[⟨1, 3, 0⟩, ⟨1, 5, 3⟩], [⟨0, 1, 0⟩]] 1).map (fun d => d.recvs)
        = some [⟨0, 5, 0⟩] := by decide
    rw [hd] at h
    simp only [Option.map_some', Option.some.injEq] at h
    rw [h] at hlen
    revert hlen
    decide
  · rintro ⟨d, hd, hlen⟩
    have h : (exchangeAt [[⟨0, 4294967296, 0⟩]] 0).map (fun d => d.recvs) = some [] := by
      decide
    rw [hd] at h
    simp only [Option.map_some', Option.some.injEq] at h
    rw [h] at hlen
    simp at hlen
  · rintro ⟨d, hd, hstray⟩
    have hs : (exchangeAt [[⟨1, 5, 3⟩], []] 1).map (fun d => d.stray)
        = some [(-1, Request.recv 0)] := by decide
    rw [hd] at hs
    simp only [Option.map_some', Option.some.injEq] at hs
    rw [hstray] at hs
    simp at hs

/-- C19 (amended): across all processes of one exchange (all-to-all as a transpose,
destinations in `[0,P)`), when the count of every plan entry is nonzero as an `int` (the
count reduced to 32 bits, which for a count in the range of `int` is the count itself),
no plan names a destination twice and every rank named as a destination posts at least
one send itself, every rank stores the requests of its receives inside its request array
and posted sends and posted receives match one-to-one: for every send posted on rank `s`
to rank `r` with count `c`, rank `r` posts exactly one receive from source `s`, and its
count is `c`; and for every receive posted on rank `r` from source `s`, rank `s` posts
exactly one send to `r`, and its count is the count of the receive. -/
theorem C19_matching (plans : List (List SendEntry))
    (hdest : ∀ plan ∈ plans, ∀ e ∈ plan, e.rank < plans.length)
    (hnonzero : ∀ plan ∈ plans, ∀ e ∈ plan, toInt32 e.count ≠ 0)
    (hdistinct : ∀ plan ∈ plans, (plan.map (fun e => e.rank)).Nodup)
    (hposted : ∀ plan ∈ plans, ∀ e ∈ plan, plans.getD e.rank [] ≠ []) :
    (∀ s, s < plans.length → ∀ sp ∈ (postSends (plans.getD s [])).sends,
      ∃ d, exchangeAt plans sp.dest = some d ∧ d.stray = [] ∧
        (d.recvs.filter (fun rp => decide (rp.source = s))).map (fun rp => rp.count)
          = [sp.count]) ∧
    (∀ r, r < plans.length → ∃ d, exchangeAt plans r = some d ∧ d.stray = [] ∧
      ∀ rp ∈ d.recvs, rp.source < plans.length ∧
        ((postSends (plans.getD rp.source [])).sends.filter
            (fun sp => decide (sp.dest = r))).map (fun sp => sp.count)
          = [rp.count]) := by
  obtain ⟨ss, h1, h2⟩ := allSsizes_spec plans.length plans hdest
  have hex : ∀ r, exchangeAt plans r
      = some (recvLoop plans.length (MPI_Alltoall ss r) (postSends (plans.getD r [])).reqs) := by
    intro r
    simp only [exchangeAt, h1]
  have hplan : ∀ s, s < plans.length → plans.getD s [] ∈ plans := by
    intro s hs
    rw [List.getD_eq_getElem _ _ hs]
    exact List.getElem_mem hs
  have hrs : ∀ r s, s < plans.length →
      (MPI_Alltoall ss r).getD s 0 = lastCount (plans.getD s []) r 0 := by
    intro r s hs
    rw [h2 r, getD_map_lists (fun plan => lastCount plan r 0) plans s [] 0 hs]
  constructor
  · intro s hs sp hsp
    rw [postSends_sends] at hsp
    obtain ⟨e, he, rfl⟩ := List.mem_map.1 hsp
    refine ⟨_, hex e.rank, recvLoop_no_stray _ _ _ (hposted _ (hplan s hs) e he), ?_⟩
    rw [(recvLoop_recvs plans.length (MPI_Alltoall ss e.rank)
      (postSends (plans.getD e.rank [])).reqs).1, List.filter_map]
    have hfe := filter_rank_of_nodup (plans.getD s []) e (hdistinct _ (hplan s hs)) he
    have hval : (MPI_Alltoall ss e.rank).getD s 0 = toInt32 e.count := by
      rw [hrs e.rank s hs]
      exact lastCount_of_filter_eq _ e.rank e 0 hfe
    have hmem : s ∈ srcs (MPI_Alltoall ss e.rank) plans.length :=
      (mem_srcs _ _ _).2 ⟨hs, by rw [hval]; exact hnonzero _ (hplan s hs) e he⟩
    have hfun : ((fun rp : RecvPost => decide (rp.source = s)) ∘
        (fun i => ({ source := i, count := (MPI_Alltoall ss e.rank).getD i 0,
                     offset := offsetAt (MPI_Alltoall ss e.rank) i } : RecvPost)))
        = (fun i => decide (i = s)) := rfl
    rw [hfun, filter_eq_singleton_of_nodup _ s
      ((srcs_pairwise (MPI_Alltoall ss e.rank) plans.length).imp (fun h => ne_of_lt h)) hmem]
    simp only [List.map_cons, List.map_nil, hval]
    rfl
  · intro r hr
    refine ⟨_, hex r, exchange_no_stray plans ss r (h2 r)
      (fun ⟨plan, hpl, e, he, her⟩ => her ▸ hposted plan hpl e he), ?_⟩
    intro rp hrp
    rw [(recvLoop_recvs plans.length (MPI_Alltoall ss r)
      (postSends (plans.getD r [])).reqs).1] at hrp
    obtain ⟨i, hi, rfl⟩ := List.mem_map.1 hrp
    obtain ⟨hiP, hne⟩ := (mem_srcs _ _ _).1 hi
    refine ⟨hiP, ?_⟩
    simp only
    rw [hrs r i hiP] at hne ⊢
    have hexists : ∃ e ∈ plans.getD i [], e.rank = r := by
      by_contra hno
      apply hne
      apply lastCount_of_not_mem
      intro e he her
      exact hno ⟨e, he, her⟩
    obtain ⟨e, he, her⟩ := hexists
    have hfe := filter_rank_of_nodup (plans.getD i []) e (hdistinct _ (hplan i hiP)) he
    rw [her] at hfe
    rw [lastCount_of_filter_eq _ r e 0 hfe, postSends_sends, List.filter_map]
    have hfun : ((fun sp : SendPost => decide (sp.dest = r)) ∘ SendEntry.toPost)
        = (fun x : SendEntry => decide (x.rank = r)) := rfl
    rw [hfun, hfe]
    rfl

/-- Witness for C19 (amended): two ranks that send to each other. -/
theorem C19_matching_witness :
    (∀ s, s < [[(⟨1, 3, 0⟩ : SendEntry)], [⟨0, 2, 0⟩]].length →
      ∀ sp ∈ (postSends ([[(⟨1, 3, 0⟩ : SendEntry)], [⟨0, 2, 0⟩]].getD s [])).sends,
      ∃ d, exchangeAt [[⟨1, 3, 0⟩], [⟨0, 2, 0⟩]] sp.dest = some d ∧ d.stray = [] ∧
        (d.recvs.filter (fun rp => decide (rp.source = s))).map (fun rp => rp.count)
          = [sp.count]) ∧
    (∀ r, r < [[(⟨1, 3, 0⟩ : SendEntry)], [⟨0, 2, 0⟩]].length →
      ∃ d, exchangeAt [[⟨1, 3, 0⟩], [⟨0, 2, 0⟩]] r = some d ∧ d.stray = [] ∧
      ∀ rp ∈ d.recvs, rp.source < [[(⟨1, 3, 0⟩ : SendEntry)], [⟨0, 2, 0⟩]].length ∧
        ((postSends ([[(⟨1, 3, 0⟩ : SendEntry)], [⟨0, 2, 0⟩]].getD
            rp.source [])).sends.filter
            (fun sp => decide (sp.dest = r))).map (fun sp => sp.count)
          = [rp.count]) :=
  C19_matching [[⟨1, 3, 0⟩], [⟨0, 2, 0⟩]] (by decide) (by decide) (by decide) (by decide)

end DSDE
